import Mathlib

/-!
Verification of the Wplace Shortlink userscript (`src/Wplace_Shortlink.user.js`).

The script is modelled by a shallow embedding over `List Char`.  JavaScript
numbers are idealized as exact decimal fractions (`Dec`, below): the script only
ever scales by 1000, rounds to an integer and divides back, and all concrete
inputs appearing in the theorems are chosen so that IEEE-754 double rounding
and the exact-decimal idealization agree.  Platform builtins used by the script
(`parseFloat`, `Number(...)` string coercion, `Math.round`, `toFixed`,
`new URL`, `URLSearchParams`, regular-expression matching) are modelled from
their standard behavior, restricted to the input shapes the script can feed
them; each model carries a doc comment naming the builtin it stands for.
-/

namespace Wplace

/-- Characters of a string literal; the model works on `List Char`. -/
def str (s : String) : List Char := s.data

/-- Model of the JavaScript regular-expression class `\s` (whitespace),
covering the code points relevant to this development. -/
def isJsSpace (c : Char) : Bool :=
  c.toNat = 9 || c.toNat = 10 || c.toNat = 11 || c.toNat = 12 || c.toNat = 13 ||
  c.toNat = 32 || c.toNat = 160 || c.toNat = 0x2028 || c.toNat = 0x2029 || c.toNat = 0xfeff

/-- A character admitted by the `[^\s'"]` class of the wplace URL regex. -/
def isTailChar (c : Char) : Bool := !isJsSpace c && c ≠ '\'' && c ≠ '"'

/-- Decimal digit test (the `\d` class / digit scanning). -/
def isDigitC (c : Char) : Bool := 48 ≤ c.toNat && c.toNat ≤ 57

/-- The character of a decimal digit. -/
def digChar (d : Nat) : Char := Char.ofNat (48 + d)

/-- Numeric value of a digit character. -/
def charVal (c : Char) : Nat := c.toNat - 48

/-- Little-endian decimal digits of `n`, with explicit fuel so the kernel can
evaluate it; `digitsFuel f n` is correct whenever `n ≤ f`. -/
def digitsFuel : Nat → Nat → List Nat
  | _, 0 => []
  | 0, _ + 1 => []
  | f + 1, n + 1 => ((n + 1) % 10) :: digitsFuel f ((n + 1) / 10)

/-- Decimal digit characters of `n`, most significant first. -/
def natDigits (n : Nat) : List Char :=
  if n = 0 then ['0'] else ((digitsFuel n n).map digChar).reverse

/-- Value of a big-endian digit-character string. -/
def digitsToNat (l : List Char) : Nat := l.foldl (fun a c => 10 * a + charVal c) 0

/-- Exact decimal fraction `num / 10 ^ pow`: the idealization of a finite
JavaScript number (IEEE-754 double rounding and overflow are not modelled). -/
structure Dec where
  num : Int
  pow : Nat
deriving DecidableEq, Repr

/-- A JavaScript number: NaN, a signed infinity, or a finite value. -/
inductive JsNum where
  | nan
  | inf (neg : Bool)
  | fin (d : Dec)
deriving DecidableEq, Repr

/-- Model of `Number.isNaN`. -/
def JsNum.isNaNb : JsNum → Bool
  | .nan => true
  | _ => false

/-- Model of `isFinite` (after numeric coercion). -/
def JsNum.isFiniteb : JsNum → Bool
  | .fin _ => true
  | _ => false

/-- Model of `Math.round` on the exact value `num / 10^pow`: the integer
`⌊x + 1/2⌋` (JavaScript rounds exact halves toward +∞), computed on integers:
`⌊x + 1/2⌋ = ⌊(2·num + 10^pow) / (2·10^pow)⌋`. -/
def jsRoundDec (d : Dec) : Int := (2 * d.num + 10 ^ d.pow).ediv (2 * 10 ^ d.pow)

/-- Multiplication of an exact decimal by 1000 (the `n * 1000` of `round3`). -/
def decMul1000 (d : Dec) : Dec := ⟨d.num * 1000, d.pow⟩

/-- The three decimal digits of `r` (`r < 1000`), zero padded. -/
def pad3 (r : Nat) : List Char := [digChar (r / 100 % 10), digChar (r / 10 % 10), digChar (r % 10)]

/-- Model of `(k/1000).toFixed(3)` for an integer `k` — the only shape
`round3` feeds `toFixed`: sign, integer digits, a dot, exactly three decimals. -/
def toFixed3 (k : Int) : List Char :=
  (if k < 0 then ['-'] else []) ++ natDigits (k.natAbs / 1000) ++ '.' :: pad3 (k.natAbs % 1000)

/-- Drop a leading dot, if present. -/
def dropDotHead (l : List Char) : List Char :=
  if l.head? = some '.' then l.tail else l

/-- Model of `s.replace(/(?:\.0+$|(\.\d+?)0+$)/, '$1')` on a `toFixed` result:
trailing zero decimals are dropped, and the decimal point too if all three
decimals were zero. -/
def stripFixedZeros (l : List Char) : List Char :=
  (dropDotHead (l.reverse.dropWhile (fun c => c = '0'))).reverse

/-- The canonical 3-decimal rendering `round3` produces for the scaled
integer `k` (value `k/1000`). -/
def fmt3 (k : Int) : List Char := stripFixedZeros (toFixed3 k)

/-- Model of `round3` (source lines 21–26) applied to an already-coerced
number: null for non-finite input, else round at 3 decimals and strip zeros. -/
def round3Num : JsNum → Option (List Char)
  | .fin d => some (fmt3 (jsRoundDec (decMul1000 d)))
  | _ => none

/-- `takeWhile`/`dropWhile` split on a digit run. -/
def takeDigits (l : List Char) : List Char × List Char :=
  (l.takeWhile isDigitC, l.dropWhile isDigitC)

/-- Strip an ASCII case-insensitive occurrence of `pat` from the front of `l`;
returns the consumed original characters and the rest. -/
def stripCI : List Char → List Char → Option (List Char × List Char)
  | [], l => some ([], l)
  | _ :: _, [] => none
  | p :: ps, c :: cs =>
    if c.toLower = p.toLower then (stripCI ps cs).map (fun x => (c :: x.1, x.2)) else none

/-- Assemble the exact decimal `±(ip.fp) × 10^(±ep)` from parsed sign, integer
digits, fraction digits and exponent digits. -/
def decOfParts (neg : Bool) (ip fp : List Char) (eneg : Bool) (ep : List Char) : Dec :=
  let m : Nat := digitsToNat ip * 10 ^ fp.length + digitsToNat fp
  let sm : Int := if neg then -(m : Int) else (m : Int)
  let e := digitsToNat ep
  if eneg then ⟨sm, fp.length + e⟩
  else if e ≤ fp.length then ⟨sm, fp.length - e⟩
  else ⟨sm * 10 ^ (e - fp.length), 0⟩

/-- Exponent-part scan for `parseFloat`: consumes `e`/`E`, an optional sign and
a digit run if present; an exponent without digits contributes nothing, which
matches `parseFloat` taking the longest valid literal prefix. -/
def parseExpPart (l : List Char) : Bool × List Char :=
  match l with
  | c :: rest =>
    if c = 'e' ∨ c = 'E' then
      match rest with
      | s :: rest2 =>
        if s = '+' then (false, (takeDigits rest2).1)
        else if s = '-' then (true, (takeDigits rest2).1)
        else (false, (takeDigits rest).1)
      | [] => (false, [])
    else (false, [])
  | [] => (false, [])

/-- Leading-sign split shared by the numeric parsers. -/
def signSplit (l : List Char) : Bool × List Char :=
  if l.head? = some '-' then (true, l.tail)
  else if l.head? = some '+' then (false, l.tail)
  else (false, l)

/-- Fraction scan: a dot followed by a digit run, else nothing. -/
def parseFracPart (l : List Char) : List Char × List Char :=
  match l with
  | '.' :: rd => takeDigits rd
  | _ => ([], l)

/-- The unsigned part of a `parseFloat` literal: `Infinity` or the longest
decimal-literal prefix; NaN when there is no digit at all. -/
def parseULit (neg : Bool) (l1 : List Char) : JsNum :=
  if (str "Infinity").isPrefixOf l1 then .inf neg
  else
    let ipr := takeDigits l1
    let fpr := parseFracPart ipr.2
    if ipr.1 = [] ∧ fpr.1 = [] then .nan
    else
      let ex := parseExpPart fpr.2
      .fin (decOfParts neg ipr.1 fpr.1 ex.1 ex.2)

/-- Model of the JavaScript `parseFloat` builtin: skip leading whitespace,
optional sign, then the longest prefix that is `Infinity` or a decimal
literal; NaN when no such prefix exists. -/
def jsParseFloat (s : List Char) : JsNum :=
  let sl := signSplit (s.dropWhile isJsSpace)
  parseULit sl.1 sl.2

/-- Digit value in radix ≤ 16. -/
def hexVal (c : Char) : Option Nat :=
  if isDigitC c then some (charVal c)
  else if 'a' ≤ c ∧ c ≤ 'f' then some (c.toNat - 87)
  else if 'A' ≤ c ∧ c ≤ 'F' then some (c.toNat - 55)
  else none

/-- Value of a digit string in radix `b`, none on an invalid digit. -/
def radixVal (b : Nat) (l : List Char) : Option Nat :=
  l.foldl
    (fun acc c =>
      match acc, hexVal c with
      | some a, some v => if v < b then some (b * a + v) else none
      | _, _ => none)
    (some 0)

/-- Whole-string decimal-literal parse for string-to-number coercion:
the entire string must be `[+-]?(Infinity | digits[.digits]?[exp] | .digits[exp])`. -/
def decimalFull (l : List Char) : JsNum :=
  let sl := signSplit l
  let neg := sl.1
  let l1 := sl.2
  if l1 = str "Infinity" then .inf neg
  else
    let ipr := takeDigits l1
    let ip := ipr.1
    let fpr : List Char × List Char :=
      match ipr.2 with
      | '.' :: rd => takeDigits rd
      | _ => ([], ipr.2)
    let fp := fpr.1
    if ip = [] ∧ fp = [] then .nan
    else
      match fpr.2 with
      | [] => .fin (decOfParts neg ip fp false [])
      | c :: rest =>
        if c = 'e' ∨ c = 'E' then
          let sr : Bool × List Char :=
            match rest with
            | '+' :: rr => (false, rr)
            | '-' :: rr => (true, rr)
            | _ => (false, rest)
          let epr := takeDigits sr.2
          if epr.1 ≠ [] ∧ epr.2 = [] then .fin (decOfParts neg ip fp sr.1 epr.1)
          else .nan
        else .nan

/-- Model of JavaScript string-to-number coercion (`Number(v)` on a string):
trim, empty string is 0, `0x`/`0o`/`0b` integer literals, otherwise the whole
string must be a decimal literal or the result is NaN. -/
def jsToNumber (s : List Char) : JsNum :=
  let l := ((s.dropWhile isJsSpace).reverse.dropWhile isJsSpace).reverse
  match l with
  | [] => .fin ⟨0, 0⟩
  | '0' :: x :: rest =>
    if x = 'x' ∨ x = 'X' then
      match radixVal 16 rest with
      | some v => if rest = [] then .nan else .fin ⟨(v : Int), 0⟩
      | none => .nan
    else if x = 'o' ∨ x = 'O' then
      match radixVal 8 rest with
      | some v => if rest = [] then .nan else .fin ⟨(v : Int), 0⟩
      | none => .nan
    else if x = 'b' ∨ x = 'B' then
      match radixVal 2 rest with
      | some v => if rest = [] then .nan else .fin ⟨(v : Int), 0⟩
      | none => .nan
    else decimalFull l
  | _ => decimalFull l

/-- Model of `round3` applied to a string (numeric coercion then rounding). -/
def round3OfStr (s : List Char) : Option (List Char) := round3Num (jsToNumber s)

/-- JavaScript template-literal stringification of a value that is either a
string or `null` (`${x}` renders null as "null"). -/
def optStr (o : Option (List Char)) : List Char := o.getD (str "null")

example : round3Num (.fin ⟨123456, 5⟩) = some (str "1.235") := by decide
example : round3Num (.fin ⟨12, 1⟩) = some (str "1.2") := by decide
example : round3Num (.fin ⟨2, 0⟩) = some (str "2") := by decide
example : round3OfStr (str "abc") = none := by decide
example : round3Num (.fin ⟨-625, 4⟩) = some (str "-0.062") := by decide
example : round3Num (jsParseFloat (str "12.345678")) = some (str "12.346") := by decide
example : round3Num (jsParseFloat (str "-98.7654")) = some (str "-98.765") := by decide
example : jsParseFloat (str "Infinity") = .inf false := by decide
example : jsParseFloat (str "null") = .nan := by decide
example : jsParseFloat (str "12.3abc") = .fin ⟨123, 1⟩ := by decide
example : jsToNumber (str "12.3abc") = .nan := by decide
example : round3OfStr (str "5") = some (str "5") := by decide
example : round3OfStr (str "5.6789") = some (str "5.679") := by decide

/-! ## Percent decoding and `URLSearchParams` -/

/-- One percent-escape step: two hex digits after a `%`, if well formed. -/
def pctStep (r : List Char) : Option (Char × List Char) :=
  match r with
  | h1 :: h2 :: r2 =>
    match hexVal h1, hexVal h2 with
    | some a, some b => some (Char.ofNat (16 * a + b), r2)
    | _, _ => none
  | _ => none

def percentDecodeF : Nat → List Char → List Char
  | 0, l => l
  | _ + 1, [] => []
  | f + 1, c :: r =>
    if c = '%' then
      match pctStep r with
      | some p => p.1 :: percentDecodeF f p.2
      | none => '%' :: percentDecodeF f r
    else c :: percentDecodeF f r

/-- Model of percent decoding on byte-for-character data (multi-byte UTF-8
sequences are not re-assembled; all inputs in this development are ASCII).
The fuel argument of `percentDecodeF` is only a structural-recursion device:
each step consumes at least one character, so `l.length` always suffices. -/
def percentDecode (l : List Char) : List Char := percentDecodeF l.length l

/-- `application/x-www-form-urlencoded` value decoding: `+` to space, then
percent decoding. -/
def formDecode (l : List Char) : List Char :=
  percentDecode (l.map (fun c => if c = '+' then ' ' else c))

/-- Split a character list at every occurrence of `a` (like `String.split`). -/
def splitOnChar (a : Char) : List Char → List (List Char)
  | [] => [[]]
  | c :: r =>
    match splitOnChar a r with
    | [] => [[]]
    | s :: ss => if c = a then [] :: s :: ss else (c :: s) :: ss

/-- Split at the first occurrence of `a`, if any. -/
def splitFirstChar (a : Char) : List Char → Option (List Char × List Char)
  | [] => none
  | c :: r =>
    if c = a then some ([], r)
    else (splitFirstChar a r).map (fun p => (c :: p.1, p.2))

/-- Split at the last occurrence of `a`, if any. -/
def splitLastChar (a : Char) (l : List Char) : Option (List Char × List Char) :=
  (splitFirstChar a l.reverse).map (fun p => (p.2.reverse, p.1.reverse))

/-- One `name=value` pair of a query string: split at the first `=`,
decode name and value. -/
def parsePairQS (seg : List Char) : List Char × List Char :=
  match splitFirstChar '=' seg with
  | some p => (formDecode p.1, formDecode p.2)
  | none => (formDecode seg, [])

/-- Model of `application/x-www-form-urlencoded` parsing, the list of pairs
behind a `URLSearchParams`: split on `&`, skip empty segments. -/
def parseQS (qs : List Char) : List (List Char × List Char) :=
  ((splitOnChar '&' qs).filter (fun s => s ≠ [])).map parsePairQS

/-- Model of the `new URLSearchParams(init)` constructor: a single leading
`?` is stripped. -/
def newSearchParams (qs : List Char) : List (List Char × List Char) :=
  parseQS (match qs with | '?' :: r => r | _ => qs)

/-- Model of `URLSearchParams.has`. -/
def spHas (ps : List (List Char × List Char)) (n : List Char) : Bool :=
  ps.any (fun p => p.1 = n)

/-- Model of `URLSearchParams.get` (first matching pair). -/
def spGet (ps : List (List Char × List Char)) (n : List Char) : Option (List Char) :=
  (ps.find? (fun p => p.1 = n)).map (fun p => p.2)

/-! ## `new URL` -/

/-- The components of a parsed URL that the script observes. -/
structure JsURL where
  scheme : List Char
  host : List Char
  port : List Char
  pathname : List Char
  query : List Char
  hash : List Char
deriving DecidableEq, Repr

/-- Model of `url.searchParams` (parsed from the query component). -/
def JsURL.searchParams (u : JsURL) : List (List Char × List Char) := parseQS u.query

/-- Model of the `url.host` getter (includes a non-default port). -/
def JsURL.hostPort (u : JsURL) : List Char :=
  u.host ++ (if u.port = [] then [] else ':' :: u.port)

/-- Model of the `url.search` getter (empty unless the query is non-empty). -/
def JsURL.searchSer (u : JsURL) : List Char :=
  if u.query = [] then [] else '?' :: u.query

/-- Model of the `url.hash` getter. -/
def JsURL.hashSer (u : JsURL) : List Char :=
  if u.hash = [] then [] else '#' :: u.hash

/-- Scheme characters (`ALPHA / DIGIT / + / - / .`), by code point. -/
def isSchemeChar (c : Char) : Bool :=
  (65 ≤ c.toNat && c.toNat ≤ 90) || (97 ≤ c.toNat && c.toNat ≤ 122) || isDigitC c ||
  c.toNat = 43 || c.toNat = 45 || c.toNat = 46

/-- Forbidden domain code points of the URL standard, by code point:
C0-or-space, `# / : < > ? @ [ \\ ] ^ |`, `%`, DEL, plus non-ASCII (which would
go through IDNA and cannot occur in this development's scope). -/
def isForbiddenHostChar (c : Char) : Bool :=
  c.toNat ≤ 32 || c.toNat = 35 || c.toNat = 47 || c.toNat = 58 || c.toNat = 60 ||
  c.toNat = 62 || c.toNat = 63 || c.toNat = 64 || c.toNat = 91 || c.toNat = 92 ||
  c.toNat = 93 || c.toNat = 94 || c.toNat = 124 || c.toNat = 37 ||
  c.toNat = 127 || 128 ≤ c.toNat

/-- Input preparation of the URL parser: trim leading and trailing C0/space,
remove interior tabs and newlines. -/
def urlTrim (l : List Char) : List Char :=
  (((l.dropWhile (fun c => c.toNat ≤ 32)).reverse.dropWhile (fun c => c.toNat ≤ 32)).reverse).filter
    (fun c => !(c.toNat = 9 || c.toNat = 10 || c.toNat = 13))

/-- ASCII alphabetic, by code point. -/
def isAsciiAlpha (c : Char) : Bool :=
  (65 ≤ c.toNat && c.toNat ≤ 90) || (97 ≤ c.toNat && c.toNat ≤ 122)

/-- Scheme scan: an alpha-initial run of scheme characters terminated by `:`;
anything else makes the whole parse fail (there is no base URL). -/
def parseScheme (l : List Char) : Option (List Char × List Char) :=
  match l.takeWhile isSchemeChar, l.dropWhile isSchemeChar with
  | [], _ => none
  | c :: cs, ':' :: r => if isAsciiAlpha c then some ((c :: cs).map Char.toLower, r) else none
  | _ :: _, _ => none

/-- Userinfo removal: everything before the last `@` of the authority. -/
def dropUserinfo (auth : List Char) : List Char :=
  match splitLastChar '@' auth with
  | some p => p.2
  | none => auth

/-- Split the userinfo-free authority at the first `:` into host and port
strings (no `:` means an empty port string). -/
def hostPortSplit (auth : List Char) : List Char × List Char :=
  match splitFirstChar ':' (dropUserinfo auth) with
  | some p => p
  | none => (dropUserinfo auth, [])

/-- Port validation: empty means no port; otherwise all digits, value at most
65535, with the scheme's default port elided. -/
def portOf (defaultPort : Nat) (pstr : List Char) : Option (List Char) :=
  if pstr = [] then some []
  else if pstr.all isDigitC then
    if digitsToNat pstr ≤ 65535 then
      some (if digitsToNat pstr = defaultPort then [] else natDigits (digitsToNat pstr))
    else none
  else none

/-- Host and port of an authority (userinfo before the last `@` is dropped):
the host must be non-empty and free of forbidden characters and is lowercased;
a port must be digits valued ≤ 65535, and a default port is elided. -/
def parseHostPort (defaultPort : Nat) (auth : List Char) : Option (List Char × List Char) :=
  if (hostPortSplit auth).1 = [] then none
  else if (hostPortSplit auth).1.any isForbiddenHostChar then none
  else
    match portOf defaultPort (hostPortSplit auth).2 with
    | none => none
    | some port => some ((hostPortSplit auth).1.map Char.toLower, port)

/-- Query and hash components of the remainder after the path. -/
def parseQueryHash (l : List Char) : List Char × List Char :=
  match l with
  | '?' :: r =>
    (r.takeWhile (fun c => c ≠ '#'),
     match r.dropWhile (fun c => c ≠ '#') with
     | '#' :: h => h
     | _ => [])
  | '#' :: h => ([], h)
  | _ => ([], [])

/-- The authority slice of a special URL's remainder: skip leading slashes,
stop at a path, query or fragment delimiter. -/
def specialAuth (rest : List Char) : List Char :=
  (rest.dropWhile (fun c => c = '/' || c = '\\')).takeWhile
    (fun c => !(c = '/' || c = '\\' || c = '?' || c = '#'))

/-- What follows the authority slice. -/
def specialAfter (rest : List Char) : List Char :=
  (rest.dropWhile (fun c => c = '/' || c = '\\')).dropWhile
    (fun c => !(c = '/' || c = '\\' || c = '?' || c = '#'))

/-- Path, query and hash of a special URL, assembled around a parsed
host/port pair. -/
def specialTail (scheme rest : List Char) (hp : List Char × List Char) : JsURL :=
  ⟨scheme, hp.1, hp.2,
    (if (specialAfter rest).takeWhile (fun c => !(c = '?' || c = '#')) = [] then ['/']
     else ((specialAfter rest).takeWhile (fun c => !(c = '?' || c = '#'))).map
       (fun c => if c = '\\' then '/' else c)),
    (parseQueryHash ((specialAfter rest).dropWhile (fun c => !(c = '?' || c = '#')))).1,
    (parseQueryHash ((specialAfter rest).dropWhile (fun c => !(c = '?' || c = '#')))).2⟩

/-- A special (`http`/`https`) URL from the remainder after the scheme:
authority with validated host, then path, query and hash. -/
def specialURL (scheme rest : List Char) : Option JsURL :=
  match parseHostPort (if scheme = str "https" then 443 else 80) (specialAuth rest) with
  | none => none
  | some hp => some (specialTail scheme rest hp)

/-- A non-special URL: opaque path straight from the remainder, plus query
and hash. -/
def opaqueURL (scheme rest : List Char) : Option JsURL :=
  some ⟨scheme, [], [],
    rest.takeWhile (fun c => !(c = '?' || c = '#')),
    (parseQueryHash (rest.dropWhile (fun c => !(c = '?' || c = '#')))).1,
    (parseQueryHash (rest.dropWhile (fun c => !(c = '?' || c = '#')))).2⟩

/-- Model of the `new URL(input)` constructor (throw is `none`), covering the
input shapes the script can build: `http`/`https` URLs parse an authority
(non-empty validated host, optional numeric port) then path, query and hash;
any other valid scheme yields an opaque-path URL with query and hash (the
exotic non-special `//` authority form is subsumed into the opaque path, which
no reachable observation distinguishes); no scheme means failure, since the
script never supplies a base URL.  Path dot-segment normalization and the
serializer's extra percent-encoding are identity on every reachable input and
are not modelled. -/
def jsNewURLTrimmed (l : List Char) : Option JsURL :=
  match parseScheme l with
  | none => none
  | some sr =>
    if sr.1 = str "http" ∨ sr.1 = str "https" then specialURL sr.1 sr.2
    else opaqueURL sr.1 sr.2

/-- Entry point of the `new URL` model: trim, then parse. -/
def jsNewURL (input : List Char) : Option JsURL := jsNewURLTrimmed (urlTrim input)

/-! ## The wplace URL regex -/

/-- The `wplace\.live[^\s'"]*` part of the regex at the current position:
the literal domain (case-insensitively) followed by a maximal tail run. -/
def wplaceCorePart (rest : List Char) : Option (List Char) :=
  match stripCI (str "wplace.live") rest with
  | some lr => some (lr.1 ++ lr.2.takeWhile isTailChar)
  | none => none

/-- The `(www\.)?wplace\.live[^\s'"]*` part, with the greedy optional group:
`www.` is tried first, and on failure of the remainder the group backtracks
to empty. -/
def wwwCorePart (rest : List Char) : Option (List Char) :=
  match stripCI (str "www.") rest with
  | some wr =>
    match wplaceCorePart wr.2 with
    | some m => some (wr.1 ++ m)
    | none => wplaceCorePart rest
  | none => wplaceCorePart rest

/-- One anchored attempt of `/(https?:\/\/)?(www\.)?wplace\.live[^\s'"]*/i`,
in the engine's backtracking order: `https://` then `http://` then no protocol
(a position matching one protocol form cannot match the other, so the
fall-through after a failed body is directly the protocol-free attempt). -/
def matchWplaceAt (l : List Char) : Option (List Char) :=
  match stripCI (str "https://") l with
  | some pr =>
    match wwwCorePart pr.2 with
    | some m => some (pr.1 ++ m)
    | none => wwwCorePart l
  | none =>
    match stripCI (str "http://") l with
    | some pr =>
      match wwwCorePart pr.2 with
      | some m => some (pr.1 ++ m)
      | none => wwwCorePart l
    | none => wwwCorePart l

/-- Leftmost match of the wplace URL regex: the first start position whose
anchored attempt succeeds. -/
def findWplaceMatch : List Char → Option (List Char)
  | [] => none
  | c :: r =>
    match matchWplaceAt (c :: r) with
    | some m => some m
    | none => findWplaceMatch r

/-- Model of `/^https?:\/\//i.test(s)`. -/
def hasProtoCI (l : List Char) : Bool :=
  (stripCI (str "https://") l).isSome || (stripCI (str "http://") l).isSome

/-- Model of `s.replace(/^(https?:\/\/)?/, '')` — note: case-SENSITIVE. -/
def stripProtoCS (l : List Char) : List Char :=
  if (str "https://").isPrefixOf l then l.drop 8
  else if (str "http://").isPrefixOf l then l.drop 7
  else l

/-- Model of `s.replace(/^https?:\/\//i, '')`. -/
def stripProtoCI (l : List Char) : List Char :=
  match stripCI (str "https://") l with
  | some pr => pr.2
  | none =>
    match stripCI (str "http://") l with
    | some pr => pr.2
    | none => l

/-- Model of `s.replace(/^www\./i, '')`. -/
def stripWwwCI (l : List Char) : List Char :=
  match stripCI (str "www.") l with
  | some wr => wr.2
  | none => l

/-! ## `extractAndFormatUrl` -/

/-- The success template `wplace.live/?lat=${latS}&lng=${lngS}${zoomPart}`
shared by source lines 49, 65, 249 and 261 (`${null}` renders as "null"). -/
def buildResult (latS lngS : Option (List Char)) (zoomPart : List Char) : List Char :=
  str "wplace.live/?lat=" ++ optStr latS ++ str "&lng=" ++ optStr lngS ++ zoomPart

/-- The `${zoom ? `&zoom=${zoom}` : ''}` part with the zoom value passed
through raw (empty or absent zoom is falsy). -/
def zoomRaw (z : Option (List Char)) : List Char :=
  match z with
  | some zv => if zv = [] then [] else str "&zoom=" ++ zv
  | none => []

/-- The `${zoom ? `&zoom=${round3(zoom)}` : ''}` part of the manual fallback
(source line 65): the zoom value goes through `round3`. -/
def zoomRounded (z : Option (List Char)) : List Char :=
  match z with
  | some zv => if zv = [] then [] else str "&zoom=" ++ optStr (round3OfStr zv)
  | none => []

/-- The structured branch of `extractAndFormatUrl` (source lines 41–49), as a
function of the parsed `searchParams`: both lat and lng must be present and
parse to non-NaN values; lat/lng go through `parseFloat` then `round3`, and
the zoom value (if present and truthy) is appended raw. -/
def extractStructured (params : List (List Char × List Char)) : Option (List Char) :=
  if !(spHas params (str "lat")) || !(spHas params (str "lng")) then none
  else if (jsParseFloat ((spGet params (str "lat")).getD [])).isNaNb
      || (jsParseFloat ((spGet params (str "lng")).getD [])).isNaNb then none
  else some (buildResult (round3Num (jsParseFloat ((spGet params (str "lat")).getD [])))
    (round3Num (jsParseFloat ((spGet params (str "lng")).getD [])))
    (zoomRaw (spGet params (str "zoom"))))

/-- The manual fallback branch of `extractAndFormatUrl` (source lines 52–69):
everything after the first `?` of the protocol- and `www.`-stripped fragment
is parsed as a query string; lat/lng as in the structured branch, but the
zoom value is passed through `round3` (source line 65). -/
def extractFallback (raw : List Char) : Option (List Char) :=
  match splitFirstChar '?' raw with
  | none => none
  | some pq =>
    if spHas (newSearchParams pq.2) (str "lat") && spHas (newSearchParams pq.2) (str "lng") then
      if !(jsParseFloat ((spGet (newSearchParams pq.2) (str "lat")).getD [])).isNaNb
          && !(jsParseFloat ((spGet (newSearchParams pq.2) (str "lng")).getD [])).isNaNb then
        some (buildResult
          (round3Num (jsParseFloat ((spGet (newSearchParams pq.2) (str "lat")).getD [])))
          (round3Num (jsParseFloat ((spGet (newSearchParams pq.2) (str "lng")).getD [])))
          (zoomRounded (spGet (newSearchParams pq.2) (str "zoom"))))
      else none
    else none

/-- The per-fragment body of `extractAndFormatUrl` (source lines 39–70): try
the structured parse of the protocol-normalized fragment (note line 40:
the protocol test is case-insensitive but the strip is case-sensitive), fall
back to the manual parse when the constructor throws. -/
def extractCore (matched : List Char) : Option (List Char) :=
  match jsNewURL ((if hasProtoCI matched then [] else str "https://") ++ stripProtoCS matched) with
  | some url => extractStructured url.searchParams
  | none => extractFallback (stripWwwCI (stripProtoCI matched))

/-- Model of `extractAndFormatUrl` (source lines 29–73): regex match, then a
structured `new URL` attempt on the protocol-normalized fragment, falling back
to a manual query-string parse when the constructor throws. -/
def extractAndFormatUrl (text : List Char) : Option (List Char) :=
  if text = [] then none
  else
    match findWplaceMatch text with
    | none => none
    | some matched => extractCore matched

/-! ## The Action Interceptor's normalizer -/

/-- The `[^&\s]` class of the fallback lat/lng regex. -/
def isG1Char (c : Char) : Bool := c ≠ '&' && !isJsSpace c

/-- Characters matched by `.` (anything but line terminators). -/
def isDotChar (c : Char) : Bool :=
  !(c.toNat = 10 || c.toNat = 13 || c.toNat = 0x2028 || c.toNat = 0x2029)

/-- The lazy `.*?lng=([^&\s]+)` scan: try `lng=` at each successive position,
extending the dot-run one (dot-matchable) character at a time. -/
def findLngFrom : List Char → Option (List Char)
  | [] => none
  | c :: r =>
    match stripCI (str "lng=") (c :: r) with
    | some pr =>
      let g2 := pr.2.takeWhile isG1Char
      if g2 ≠ [] then some g2
      else if isDotChar c then findLngFrom r else none
    | none => if isDotChar c then findLngFrom r else none

/-- Backtracking of the greedy first group `([^&\s]+)`: try capture lengths
from `n` down to 1, each followed by the lazy `lng=` scan on the remainder. -/
def g1Try (r : List Char) : Nat → Option (List Char × List Char)
  | 0 => none
  | n + 1 =>
    match findLngFrom (r.drop (n + 1)) with
    | some g2 => some (r.take (n + 1), g2)
    | none => g1Try r n

/-- Model of the search of `/lat=([^&\s]+).*?lng=([^&\s]+)/i`: leftmost start
where `lat=` matches and the backtracking body succeeds. -/
def matchLatLng : List Char → Option (List Char × List Char)
  | [] => none
  | c :: r =>
    match
      (match stripCI (str "lat=") (c :: r) with
       | some pr => g1Try pr.2 (pr.2.takeWhile isG1Char).length
       | none => none)
    with
    | some res => some res
    | none => matchLatLng r

/-- Model of the search of `/[?&]zoom=([^&\s]+)/i`. -/
def matchZoom : List Char → Option (List Char)
  | [] => none
  | c :: r =>
    if c = '?' ∨ c = '&' then
      match stripCI (str "zoom=") r with
      | some pr =>
        let g := pr.2.takeWhile isG1Char
        if g ≠ [] then some g else matchZoom r
      | none => matchZoom r
    else matchZoom r

/-- The degraded result `(u.host + u.pathname + u.search + u.hash).replace(/^\/+/, '')`
of source line 251. -/
def withoutProto (u : JsURL) : List Char :=
  (u.hostPort ++ u.pathname ++ u.searchSer ++ u.hashSer).dropWhile (fun c => c = '/')

/-- The structured branch of `normalizeAndRoundUrl` (source lines 243–252):
`round3` is applied to the raw parameter strings (ECMAScript `Number`
coercion), the zoom is appended raw, and a parse without lat/lng degrades to
the protocol-less serialization. -/
def normStructured (u : JsURL) : Option (List Char) :=
  if spHas u.searchParams (str "lat") && spHas u.searchParams (str "lng") then
    some (buildResult (round3OfStr ((spGet u.searchParams (str "lat")).getD []))
      (round3OfStr ((spGet u.searchParams (str "lng")).getD []))
      (zoomRaw (spGet u.searchParams (str "zoom"))))
  else some (withoutProto u)

/-- The regex fallback of `normalizeAndRoundUrl` (source lines 254–263):
`lat=` must occur before `lng=`; zoom is appended raw; with no match the
protocol-stripped candidate is returned (one leading `//` removed). -/
def normFallback (s : List Char) : Option (List Char) :=
  match matchLatLng s with
  | some lg => some (buildResult (round3OfStr lg.1) (round3OfStr lg.2) (zoomRaw (matchZoom s)))
  | none => some (if (str "//").isPrefixOf s then s.drop 2 else s)

/-- The body of `normalizeAndRoundUrl` (source lines 240–264). -/
def normCore (raw : List Char) : Option (List Char) :=
  match jsNewURL (if hasProtoCI raw then raw else str "https://" ++ raw) with
  | some u => normStructured u
  | none => normFallback (stripProtoCI raw)

/-- Model of `normalizeAndRoundUrl` (source lines 238–265): structured parse
of the (protocol-completed) candidate with `round3` on the raw parameter
strings, else a regex fallback requiring `lat=` before `lng=`, else the
candidate with the protocol stripped. -/
def normalizeAndRoundUrl (raw : List Char) : Option (List Char) :=
  if raw = [] then none else normCore raw

/-- Model of the interceptor's `extractWplaceUrl` (source lines 205–210),
the producer of every candidate `findCandidateString` can return. -/
def extractWplaceUrl (text : List Char) : Option (List Char) :=
  if text = [] then none else findWplaceMatch text

/-- The user-visible outcome of one click-handler invocation. -/
inductive ClickOutcome where
  | failToast
  | copied (s : List Char)
deriving DecidableEq, Repr

/-- The click handler's decision (source lines 310–320) as a function of the
discovered candidate: no candidate or a falsy normalization yields the failure
toast, otherwise the normalized text is copied. -/
def clickHandlerOutcome (cand : Option (List Char)) : ClickOutcome :=
  match cand with
  | none => .failToast
  | some raw =>
    match normalizeAndRoundUrl raw with
    | none => .failToast
    | some s => if s = [] then .failToast else .copied s

/-! ## The Sync Engine's per-node state -/

/-- A DOM element as the script observes it: the text surfaces it reads and
writes, the attributes it touches, and all remaining attributes abstractly. -/
structure NodeState where
  hasValueProp : Bool
  value : List Char
  valueAttr : Option (List Char)
  hasInnerTextProp : Bool
  innerText : List Char
  textContent : List Char
  titleAttr : Option (List Char)
  classAttr : Option (List Char)
  readonlyAttr : Option (List Char)
  otherAttrs : List (List Char × List Char)
deriving DecidableEq, Repr

/-- JavaScript `||` chain over text alternatives (empty string is falsy). -/
def jsOrText : List (List Char) → List Char
  | [] => []
  | x :: r => if x = [] then jsOrText r else x

/-- Model of `.trim()`. -/
def jsTrim (l : List Char) : List Char :=
  ((l.dropWhile isJsSpace).reverse.dropWhile isJsSpace).reverse

/-- The current-content read
`(el.value || el.getAttribute('value') || el.innerText || el.textContent || '').trim()`
of source line 108. -/
def currentContent (el : NodeState) : List Char :=
  jsTrim (jsOrText [if el.hasValueProp then el.value else [],
                    el.valueAttr.getD [],
                    if el.hasInnerTextProp then el.innerText else [],
                    el.textContent])

/-- The per-node debounce state: the node and its `debounceMap` entry, carried
as the payload of the single uncancelled pending timer (none = no timer). -/
structure SyncState where
  node : NodeState
  pending : Option (List Char)
deriving DecidableEq, Repr

/-- Model of the synchronous body of `applyFormattedIfNeeded` (source lines
106–111 and 122–123): guards, the equality check, and — only past it —
cancellation of the previous timer and scheduling of the replacement. -/
def applyFormattedIfNeeded (s : SyncState) (formatted : Option (List Char)) : SyncState :=
  match formatted with
  | none => s
  | some f =>
    if f = [] then s
    else if currentContent s.node = f then s
    else { s with pending := some f }

/-- Model of the timer callback of `applyFormattedIfNeeded` (source lines
112–121): write the formatted text through the first supported surface
(`value`, else `innerText`, else `textContent`) and set the `title`
attribute. -/
def applyPendingWrite (el : NodeState) (f : List Char) : NodeState :=
  let el1 :=
    if el.hasValueProp then { el with value := f }
    else if el.hasInnerTextProp then { el with innerText := f }
    else { el with textContent := f }
  { el1 with titleAttr := some (str "formatted â†’ " ++ f) }

/-! ## Digit, formatting and parsing lemmas -/

theorem char_ne_of_toNat {c d : Char} (h : c.toNat ≠ d.toNat) : c ≠ d :=
  fun he => h (he ▸ rfl)

theorem dropWhile_eq_self_all {p : Char → Bool} {l : List Char} (h : ∀ c ∈ l, p c = false) :
    l.dropWhile p = l := by
  induction l with
  | nil => rfl
  | cons c r ih =>
    rw [List.dropWhile_cons, h c (List.mem_cons_self c r)]
    simp

theorem takeWhile_eq_self_all {p : Char → Bool} {l : List Char} (h : ∀ c ∈ l, p c = true) :
    l.takeWhile p = l :=
  List.takeWhile_eq_self_iff.mpr h

theorem dropWhile_eq_nil_all {p : Char → Bool} {l : List Char} (h : ∀ c ∈ l, p c = true) :
    l.dropWhile p = [] :=
  List.dropWhile_eq_nil_iff.mpr h

theorem digitsFuel_eq : ∀ f n, n ≤ f → digitsFuel f n = Nat.digits 10 n := by
  intro f
  induction f with
  | zero =>
    intro n hn
    have h0 : n = 0 := by omega
    subst h0
    rw [Nat.digits_zero]
    rfl
  | succ f ih =>
    intro n hn
    match n with
    | 0 =>
      rw [Nat.digits_zero]
      rfl
    | m + 1 =>
      have h1 : (m + 1) / 10 ≤ f := by omega
      calc digitsFuel (f + 1) (m + 1) = ((m + 1) % 10) :: digitsFuel f ((m + 1) / 10) := rfl
        _ = ((m + 1) % 10) :: Nat.digits 10 ((m + 1) / 10) := by rw [ih _ h1]
        _ = Nat.digits 10 (m + 1) := (Nat.digits_def' (by norm_num) (Nat.succ_pos m)).symm

theorem natDigits_eq (n : ℕ) :
    natDigits n = if n = 0 then ['0'] else ((Nat.digits 10 n).map digChar).reverse := by
  unfold natDigits
  split
  · rfl
  · rw [digitsFuel_eq n n le_rfl]

theorem charVal_digChar {d : ℕ} (h : d < 10) : charVal (digChar d) = d := by
  interval_cases d <;> decide

theorem isDigitC_digChar {d : ℕ} (h : d < 10) : isDigitC (digChar d) = true := by
  interval_cases d <;> decide

theorem toNat_digChar {d : ℕ} (h : d < 10) : (digChar d).toNat = 48 + d := by
  interval_cases d <;> decide

theorem isDigitC_toNat {c : Char} (h : isDigitC c = true) : 48 ≤ c.toNat ∧ c.toNat ≤ 57 := by
  simp only [isDigitC, Bool.and_eq_true, decide_eq_true_eq] at h
  exact h

theorem not_space_of_digit {c : Char} (h : isDigitC c = true) : isJsSpace c = false := by
  have := isDigitC_toNat h
  simp only [isJsSpace, Bool.or_eq_false_iff, decide_eq_false_iff_not]
  omega

theorem natDigits_ne_nil (n : ℕ) : natDigits n ≠ [] := by
  rw [natDigits_eq]
  split
  · simp
  · simp [Nat.digits_ne_nil_iff_ne_zero, *]

theorem natDigits_digits (n : ℕ) : ∀ c ∈ natDigits n, isDigitC c = true := by
  rw [natDigits_eq]
  split
  · intro c hc
    simp only [List.mem_singleton] at hc
    subst hc; decide
  · intro c hc
    simp only [List.mem_reverse, List.mem_map] at hc
    obtain ⟨d, hd, rfl⟩ := hc
    exact isDigitC_digChar (Nat.digits_lt_base (by norm_num) hd)

theorem foldr_digits_val (ds : List ℕ) (h : ∀ d ∈ ds, d < 10) :
    (ds.map digChar).foldr (fun c a => 10 * a + charVal c) 0 = Nat.ofDigits 10 ds := by
  induction ds with
  | nil => simp [Nat.ofDigits]
  | cons d t ih =>
    simp only [List.map_cons, List.foldr_cons, Nat.ofDigits_cons]
    rw [ih (fun x hx => h x (List.mem_cons_of_mem _ hx)),
      charVal_digChar (h d (List.mem_cons_self d t))]
    ring

theorem digitsToNat_natDigits (n : ℕ) : digitsToNat (natDigits n) = n := by
  rw [natDigits_eq]
  by_cases h : n = 0
  · subst h; decide
  · simp only [h, if_false]
    unfold digitsToNat
    rw [List.foldl_reverse]
    have h2 := foldr_digits_val (Nat.digits 10 n)
      (fun d hd => Nat.digits_lt_base (by norm_num) hd)
    exact h2.trans (Nat.ofDigits_digits 10 n)

/-- The stripped fraction suffix of a `toFixed3` rendering, as an explicit
function of the three-digit remainder. -/
def fracPart (r : ℕ) : List Char :=
  if r % 10 ≠ 0 then '.' :: pad3 r
  else if r % 100 ≠ 0 then ['.', digChar (r / 100 % 10), digChar (r / 10 % 10)]
  else if r ≠ 0 then ['.', digChar (r / 100 % 10)]
  else []

theorem digChar_eq_zero_iff {d : ℕ} (h : d < 10) : digChar d = '0' ↔ d = 0 := by
  interval_cases d <;> decide

theorem digChar_ne_dot {d : ℕ} (h : d < 10) : digChar d ≠ '.' := by
  interval_cases d <;> decide

theorem stripFixedZeros_pad3 (x : List Char) (r : ℕ) (hr : r < 1000) :
    stripFixedZeros (x ++ '.' :: pad3 r) = x ++ fracPart r := by
  have h2 : r / 100 % 10 < 10 := Nat.mod_lt _ (by norm_num)
  have h1 : r / 10 % 10 < 10 := Nat.mod_lt _ (by norm_num)
  have h0 : r % 10 < 10 := Nat.mod_lt _ (by norm_num)
  have hrev : (x ++ '.' :: pad3 r).reverse
      = digChar (r % 10) :: digChar (r / 10 % 10) :: digChar (r / 100 % 10) :: '.' :: x.reverse := by
    simp [pad3]
  unfold stripFixedZeros
  rw [hrev]
  by_cases hc0 : r % 10 = 0
  · rw [show digChar (r % 10) = '0' by rw [hc0]; rfl]
    by_cases hc1 : r / 10 % 10 = 0
    · rw [show digChar (r / 10 % 10) = '0' by rw [hc1]; rfl]
      by_cases hc2 : r / 100 % 10 = 0
      · have hr0 : r = 0 := by omega
        subst hr0
        rw [show digChar (0 / 100 % 10) = '0' from rfl]
        have hdw : List.dropWhile (fun c => decide (c = '0'))
            ('0' :: '0' :: '0' :: '.' :: x.reverse) = '.' :: x.reverse := by
          simp [List.dropWhile_cons]
        rw [hdw]
        simp [fracPart, dropDotHead]
      · have hfrac : fracPart r = ['.', digChar (r / 100 % 10)] := by
          unfold fracPart
          simp [hc0, show r % 100 = 0 by omega, show r ≠ 0 by omega]
        rw [hfrac]
        have hdw : List.dropWhile (fun c => decide (c = '0'))
            ('0' :: '0' :: digChar (r / 100 % 10) :: '.' :: x.reverse)
            = digChar (r / 100 % 10) :: '.' :: x.reverse := by
          simp [List.dropWhile_cons, (digChar_eq_zero_iff h2).not.mpr hc2]
        rw [hdw]
        simp [dropDotHead, digChar_ne_dot h2]
    · have hfrac : fracPart r = ['.', digChar (r / 100 % 10), digChar (r / 10 % 10)] := by
        unfold fracPart
        simp [hc0, show r % 100 ≠ 0 by omega]
      rw [hfrac]
      have hdw : List.dropWhile (fun c => decide (c = '0'))
          ('0' :: digChar (r / 10 % 10) :: digChar (r / 100 % 10) :: '.' :: x.reverse)
          = digChar (r / 10 % 10) :: digChar (r / 100 % 10) :: '.' :: x.reverse := by
        simp [List.dropWhile_cons, (digChar_eq_zero_iff h1).not.mpr hc1]
      rw [hdw]
      simp [dropDotHead, digChar_ne_dot h1]
  · have hfrac : fracPart r = '.' :: pad3 r := by
      unfold fracPart
      simp [hc0]
    rw [hfrac]
    have hdw : List.dropWhile (fun c => decide (c = '0'))
        (digChar (r % 10) :: digChar (r / 10 % 10) :: digChar (r / 100 % 10) :: '.' :: x.reverse)
        = digChar (r % 10) :: digChar (r / 10 % 10) :: digChar (r / 100 % 10) :: '.' :: x.reverse := by
      simp [List.dropWhile_cons, (digChar_eq_zero_iff h0).not.mpr hc0]
    rw [hdw]
    simp [dropDotHead, digChar_ne_dot h0, pad3]

/-- Explicit form of the `round3` output string. -/
theorem fmt3_eq (k : ℤ) :
    fmt3 k = (if k < 0 then ['-'] else [])
      ++ natDigits (k.natAbs / 1000) ++ fracPart (k.natAbs % 1000) := by
  unfold fmt3 toFixed3
  rw [stripFixedZeros_pad3 _ _ (Nat.mod_lt _ (by norm_num))]

theorem fracPart_chars (r : ℕ) (_hr : r < 1000) :
    ∀ c ∈ fracPart r, c = '.' ∨ isDigitC c = true := by
  have h2 : r / 100 % 10 < 10 := Nat.mod_lt _ (by norm_num)
  have h1 : r / 10 % 10 < 10 := Nat.mod_lt _ (by norm_num)
  have h0 : r % 10 < 10 := Nat.mod_lt _ (by norm_num)
  intro c hc
  unfold fracPart at hc
  split at hc
  · simp only [pad3, List.mem_cons, List.not_mem_nil, or_false] at hc
    rcases hc with rfl | rfl | rfl | rfl
    · exact Or.inl rfl
    · exact Or.inr (isDigitC_digChar h2)
    · exact Or.inr (isDigitC_digChar h1)
    · exact Or.inr (isDigitC_digChar h0)
  · split at hc
    · simp only [List.mem_cons, List.not_mem_nil, or_false] at hc
      rcases hc with rfl | rfl | rfl
      · exact Or.inl rfl
      · exact Or.inr (isDigitC_digChar h2)
      · exact Or.inr (isDigitC_digChar h1)
    · split at hc
      · simp only [List.mem_cons, List.not_mem_nil, or_false] at hc
        rcases hc with rfl | rfl
        · exact Or.inl rfl
        · exact Or.inr (isDigitC_digChar h2)
      · simp at hc

/-- Every character of a `round3` output is a digit, a minus sign or a dot. -/
theorem fmt3_chars (k : ℤ) :
    ∀ c ∈ fmt3 k, isDigitC c = true ∨ c = '-' ∨ c = '.' := by
  rw [fmt3_eq]
  intro c hc
  rcases List.mem_append.mp hc with hc' | hc'
  · rcases List.mem_append.mp hc' with hs | hd
    · split at hs
      · simp only [List.mem_singleton] at hs
        exact Or.inr (Or.inl hs)
      · simp at hs
    · exact Or.inl (natDigits_digits _ c hd)
  · rcases fracPart_chars _ (Nat.mod_lt _ (by norm_num)) c hc' with h | h
    · exact Or.inr (Or.inr h)
    · exact Or.inl h

theorem fmt3_not_space (k : ℤ) : ∀ c ∈ fmt3 k, isJsSpace c = false := by
  intro c hc
  rcases fmt3_chars k c hc with h | h | h
  · exact not_space_of_digit h
  · subst h; decide
  · subst h; decide

theorem digit_ne_char {c : Char} (h : isDigitC c = true) {d : Char}
    (hd : d.toNat < 48 ∨ 57 < d.toNat) : c ≠ d := by
  have h1 := isDigitC_toNat h
  exact char_ne_of_toNat (by omega)

theorem signSplit_minus (t : List Char) : signSplit ('-' :: t) = (true, t) := rfl

theorem signSplit_nosign {c : Char} (t : List Char) (h1 : c ≠ '-') (h2 : c ≠ '+') :
    signSplit (c :: t) = (false, c :: t) := by
  simp [signSplit, h1, h2]

theorem inf_not_prefixOf_digit {c : Char} (h : isDigitC c = true) (t : List Char) :
    (str "Infinity").isPrefixOf (c :: t) = false := by
  have hne : c ≠ 'I' := digit_ne_char h (by decide)
  simp only [str, List.isPrefixOf, Bool.and_eq_false_iff]
  exact Or.inl (by simpa using fun heq => hne heq.symm)

theorem takeDigits_exact (D : List Char) (hD : ∀ c ∈ D, isDigitC c = true) :
    takeDigits D = (D, []) := by
  simp [takeDigits, takeWhile_eq_self_all hD, dropWhile_eq_nil_all hD]

theorem takeDigits_append_dot (D fs : List Char) (hD : ∀ c ∈ D, isDigitC c = true) :
    takeDigits (D ++ '.' :: fs) = (D, '.' :: fs) := by
  have hdot : isDigitC '.' = false := by decide
  simp [takeDigits, List.takeWhile_append_of_pos hD, List.dropWhile_append_of_pos hD,
    List.takeWhile_cons, List.dropWhile_cons, hdot]

theorem decOfParts_simple (neg : Bool) (D fs : List Char) :
    decOfParts neg D fs false []
      = ⟨(if neg then -1 else 1) * ((digitsToNat D * 10 ^ fs.length + digitsToNat fs : ℕ) : ℤ),
         fs.length⟩ := by
  unfold decOfParts
  have he : digitsToNat [] = 0 := rfl
  simp [he]

theorem parseULit_numeral (neg : Bool) (D fs : List Char) (hD : D ≠ [])
    (hDd : ∀ c ∈ D, isDigitC c = true) (hfs : ∀ c ∈ fs, isDigitC c = true) :
    parseULit neg (D ++ (if fs = [] then [] else '.' :: fs))
      = .fin (decOfParts neg D fs false []) := by
  obtain ⟨dc, ds, rfl⟩ := List.exists_cons_of_ne_nil hD
  have hdc := hDd dc (List.mem_cons_self _ _)
  by_cases hfse : fs = []
  · subst hfse
    show parseULit neg ((dc :: ds) ++ []) = _
    rw [List.append_nil]
    unfold parseULit
    rw [inf_not_prefixOf_digit hdc]
    simp only [Bool.false_eq_true, if_false]
    rw [takeDigits_exact _ hDd]
    simp [parseFracPart, parseExpPart]
  · simp only [if_neg hfse]
    unfold parseULit
    rw [show (dc :: ds) ++ '.' :: fs = dc :: (ds ++ '.' :: fs) from rfl,
      inf_not_prefixOf_digit hdc]
    simp only [Bool.false_eq_true, if_false]
    rw [show dc :: (ds ++ '.' :: fs) = (dc :: ds) ++ '.' :: fs from rfl,
      takeDigits_append_dot _ _ hDd]
    simp only [parseFracPart]
    rw [takeDigits_exact _ hfs]
    simp [parseExpPart]

theorem jsParseFloat_numeral (neg : Bool) (D fs : List Char) (hD : D ≠ [])
    (hDd : ∀ c ∈ D, isDigitC c = true) (hfs : ∀ c ∈ fs, isDigitC c = true) :
    jsParseFloat ((if neg then ['-'] else []) ++ (D ++ (if fs = [] then [] else '.' :: fs)))
      = .fin (decOfParts neg D fs false []) := by
  obtain ⟨dc, ds, hDe⟩ := List.exists_cons_of_ne_nil hD
  have hdc : isDigitC dc = true := hDd dc (hDe ▸ List.mem_cons_self _ _)
  have hsp : ∀ c ∈ (if neg then ['-'] else []) ++ (D ++ (if fs = [] then [] else '.' :: fs)),
      isJsSpace c = false := by
    intro c hc
    rcases List.mem_append.mp hc with hc' | hc'
    · cases neg with
      | true =>
        simp at hc'
        subst hc'
        decide
      | false => simp at hc'
    · rcases List.mem_append.mp hc' with hc'' | hc''
      · exact not_space_of_digit (hDd c hc'')
      · by_cases hfse : fs = []
        · simp [hfse] at hc''
        · simp only [if_neg hfse, List.mem_cons] at hc''
          rcases hc'' with rfl | hc''
          · decide
          · exact not_space_of_digit (hfs c hc'')
  unfold jsParseFloat
  rw [dropWhile_eq_self_all hsp]
  cases neg with
  | true =>
    rw [show (if (true : Bool) then ['-'] else []) ++ (D ++ (if fs = [] then [] else '.' :: fs))
        = '-' :: (D ++ (if fs = [] then [] else '.' :: fs)) from rfl,
      signSplit_minus]
    exact parseULit_numeral true D fs hD hDd hfs
  | false =>
    have hshape : (if (false : Bool) then ['-'] else []) ++ (D ++ (if fs = [] then [] else '.' :: fs))
        = D ++ (if fs = [] then [] else '.' :: fs) := by simp
    rw [hshape, hDe, List.cons_append,
      signSplit_nosign _ (digit_ne_char hdc (by decide)) (digit_ne_char hdc (by decide)),
      ← List.cons_append, ← hDe]
    exact parseULit_numeral false D fs hD hDd hfs

theorem jsParseFloat_numeral_frac (neg : Bool) (D fs : List Char) (hD : D ≠ [])
    (hDd : ∀ c ∈ D, isDigitC c = true) (hfs : ∀ c ∈ fs, isDigitC c = true) (hfne : fs ≠ []) :
    jsParseFloat ((if neg then ['-'] else []) ++ (D ++ '.' :: fs))
      = .fin (decOfParts neg D fs false []) := by
  have h := jsParseFloat_numeral neg D fs hD hDd hfs
  rwa [if_neg hfne] at h

theorem jsParseFloat_numeral_int (neg : Bool) (D : List Char) (hD : D ≠ [])
    (hDd : ∀ c ∈ D, isDigitC c = true) :
    jsParseFloat ((if neg then ['-'] else []) ++ D)
      = .fin (decOfParts neg D [] false []) := by
  have h := jsParseFloat_numeral neg D [] hD hDd (by simp)
  rwa [if_pos rfl, List.append_nil] at h

theorem jsRoundDec_of_scaled (d : Dec) (k : ℤ) (h : d.num * 1000 = k * 10 ^ d.pow) :
    jsRoundDec (decMul1000 d) = k := by
  show (2 * (d.num * 1000) + 10 ^ d.pow) / (2 * 10 ^ d.pow) = k
  rw [h, show 2 * (k * 10 ^ d.pow) + 10 ^ d.pow = (2 * k + 1) * 10 ^ d.pow by ring,
    Int.mul_ediv_mul_of_pos_left _ 2 (show (0:ℤ) < 10 ^ d.pow by positivity)]
  omega

theorem digitsToNat_pad3 (r : ℕ) :
    digitsToNat (pad3 r) = 100 * (r / 100 % 10) + 10 * (r / 10 % 10) + r % 10 := by
  have h2 : r / 100 % 10 < 10 := Nat.mod_lt _ (by norm_num)
  have h1 : r / 10 % 10 < 10 := Nat.mod_lt _ (by norm_num)
  have h0 : r % 10 < 10 := Nat.mod_lt _ (by norm_num)
  simp [digitsToNat, pad3, charVal_digChar h2, charVal_digChar h1, charVal_digChar h0]
  ring

theorem digitsToNat_two (a b : ℕ) (ha : a < 10) (hb : b < 10) :
    digitsToNat [digChar a, digChar b] = 10 * a + b := by
  simp [digitsToNat, charVal_digChar ha, charVal_digChar hb]

theorem digitsToNat_one (a : ℕ) (ha : a < 10) : digitsToNat [digChar a] = a := by
  simp [digitsToNat, charVal_digChar ha]

/-- Parsing a `round3` rendering back recovers the exact value `k/1000`:
`parseFloat (fmt3 k)` is a finite decimal whose value, scaled by 1000,
is `k` again. -/
theorem parseFloat_fmt3 (k : ℤ) :
    ∃ d : Dec, jsParseFloat (fmt3 k) = .fin d ∧ d.num * 1000 = k * 10 ^ d.pow := by
  have hra : k.natAbs = 1000 * (k.natAbs / 1000) + k.natAbs % 1000 := by omega
  have hrb : k.natAbs % 1000 < 1000 := by omega
  set m := k.natAbs / 1000 with hm
  set r := k.natAbs % 1000 with hr2
  have hD := natDigits_digits m
  have hDn := natDigits_ne_nil m
  have hDv := digitsToNat_natDigits m
  have h2 : r / 100 % 10 < 10 := Nat.mod_lt _ (by norm_num)
  have h1 : r / 10 % 10 < 10 := Nat.mod_lt _ (by norm_num)
  have hsign : ∀ b : Bool, (k < 0 ↔ b = true) →
      (if k < 0 then ['-'] else []) = (if b then ['-'] else []) := by
    intro b hb
    by_cases hk : k < 0
    · rw [if_pos hk, if_pos (hb.mp hk)]
    · rw [if_neg hk]
      cases b with
      | false => rfl
      | true => exact absurd (hb.mpr rfl) hk
  by_cases hc0 : r % 10 = 0
  · by_cases hc1 : r / 10 % 10 = 0
    · by_cases hc2 : r / 100 % 10 = 0
      · -- r = 0 : integer rendering, no fraction
        have hr0 : r = 0 := by omega
        have hfrac : fracPart r = [] := by unfold fracPart; simp [hr0]
        have hp := jsParseFloat_numeral_int (decide (k < 0)) (natDigits m) hDn hD
        rw [decOfParts_simple] at hp
        have hshape : fmt3 k
            = (if (decide (k < 0) : Bool) then ['-'] else []) ++ natDigits m := by
          rw [fmt3_eq, hfrac, List.append_nil, hsign (decide (k < 0)) (by simp)]
        refine ⟨_, by rw [hshape]; exact hp, ?_⟩
        have he : digitsToNat ([] : List Char) = 0 := rfl
        simp only [he, hDv, List.length_nil, pow_zero, mul_one, Nat.add_zero]
        by_cases hk : k < 0 <;> simp [hk] <;> omega
      · -- r ≠ 0, r % 100 = 0 : one fraction digit
        have hfrac : fracPart r = ['.', digChar (r / 100 % 10)] := by
          unfold fracPart
          simp [hc0, show r % 100 = 0 by omega, show r ≠ 0 by omega]
        have hfs : ∀ c ∈ [digChar (r / 100 % 10)], isDigitC c = true := by
          intro c hc
          simp only [List.mem_singleton] at hc
          subst hc
          exact isDigitC_digChar h2
        have hp := jsParseFloat_numeral_frac (decide (k < 0)) (natDigits m)
          [digChar (r / 100 % 10)] hDn hD hfs (List.cons_ne_nil _ _)
        rw [decOfParts_simple] at hp
        have hshape : fmt3 k = (if (decide (k < 0) : Bool) then ['-'] else [])
            ++ (natDigits m ++ '.' :: [digChar (r / 100 % 10)]) := by
          rw [fmt3_eq, hfrac, hsign (decide (k < 0)) (by simp), List.append_assoc]
        refine ⟨_, by rw [hshape]; exact hp, ?_⟩
        rw [digitsToNat_one _ h2, hDv]
        simp only [List.length_singleton]
        by_cases hk : k < 0 <;> simp [hk] <;> omega
    · -- r % 10 = 0, r % 100 ≠ 0 : two fraction digits
      have hfrac : fracPart r = ['.', digChar (r / 100 % 10), digChar (r / 10 % 10)] := by
        unfold fracPart
        simp [hc0, show r % 100 ≠ 0 by omega]
      have hfs : ∀ c ∈ [digChar (r / 100 % 10), digChar (r / 10 % 10)], isDigitC c = true := by
        intro c hc
        simp only [List.mem_cons, List.not_mem_nil, or_false] at hc
        rcases hc with rfl | rfl
        · exact isDigitC_digChar h2
        · exact isDigitC_digChar h1
      have hp := jsParseFloat_numeral_frac (decide (k < 0)) (natDigits m)
        [digChar (r / 100 % 10), digChar (r / 10 % 10)] hDn hD hfs (List.cons_ne_nil _ _)
      rw [decOfParts_simple] at hp
      have hshape : fmt3 k = (if (decide (k < 0) : Bool) then ['-'] else [])
          ++ (natDigits m ++ '.' :: [digChar (r / 100 % 10), digChar (r / 10 % 10)]) := by
        rw [fmt3_eq, hfrac, hsign (decide (k < 0)) (by simp), List.append_assoc]
      refine ⟨_, by rw [hshape]; exact hp, ?_⟩
      rw [digitsToNat_two _ _ h2 h1, hDv]
      simp only [List.length_cons, List.length_singleton]
      by_cases hk : k < 0 <;> simp [hk] <;> omega
  · -- r % 10 ≠ 0 : three fraction digits
    have hfrac : fracPart r = '.' :: pad3 r := by
      unfold fracPart
      simp [hc0]
    have hfs : ∀ c ∈ pad3 r, isDigitC c = true := by
      intro c hc
      unfold pad3 at hc
      simp only [List.mem_cons, List.not_mem_nil, or_false] at hc
      rcases hc with rfl | rfl | rfl
      · exact isDigitC_digChar h2
      · exact isDigitC_digChar h1
      · exact isDigitC_digChar (Nat.mod_lt _ (by norm_num))
    have hp := jsParseFloat_numeral_frac (decide (k < 0)) (natDigits m) (pad3 r) hDn hD hfs
      (by simp [pad3])
    rw [decOfParts_simple] at hp
    have hshape : fmt3 k = (if (decide (k < 0) : Bool) then ['-'] else [])
        ++ (natDigits m ++ '.' :: pad3 r) := by
      rw [fmt3_eq, hfrac, hsign (decide (k < 0)) (by simp), List.append_assoc]
    refine ⟨_, by rw [hshape]; exact hp, ?_⟩
    rw [digitsToNat_pad3 r, hDv]
    simp only [pad3, List.length_cons, List.length_singleton]
    by_cases hk : k < 0 <;> simp [hk] <;> omega

/-- Round-tripping a `round3` output through `parseFloat` and `round3`
reproduces it byte for byte. -/
theorem round3_parse_fmt3 (k : ℤ) :
    round3Num (jsParseFloat (fmt3 k)) = some (fmt3 k) := by
  obtain ⟨d, hd, hval⟩ := parseFloat_fmt3 k
  rw [hd]
  show some (fmt3 (jsRoundDec (decMul1000 d))) = some (fmt3 k)
  rw [jsRoundDec_of_scaled d k hval]

/-! ## URL-parse lemmas -/

theorem toLower_toNat (c : Char) :
    (c.toLower).toNat = if 65 ≤ c.toNat ∧ c.toNat ≤ 90 then c.toNat + 32 else c.toNat := by
  unfold Char.toLower
  simp only []
  split
  · next h =>
    have hv : (c.toNat + 32).isValidChar := Or.inl (by omega)
    simp only [Char.ofNat, dif_pos hv]
    rfl
  · rfl

theorem urlTrim_id (l : List Char) (h : ∀ c ∈ l, 32 < c.toNat) : urlTrim l = l := by
  have h1 : l.dropWhile (fun c => c.toNat ≤ 32) = l :=
    dropWhile_eq_self_all (by
      intro c hc
      have := h c hc
      simp only [decide_eq_false_iff_not]
      omega)
  have h2 : l.reverse.dropWhile (fun c => c.toNat ≤ 32) = l.reverse :=
    dropWhile_eq_self_all (by
      intro c hc
      rw [List.mem_reverse] at hc
      have := h c hc
      simp only [decide_eq_false_iff_not]
      omega)
  unfold urlTrim
  rw [h1, h2, List.reverse_reverse]
  refine List.filter_eq_self.mpr ?_
  intro c hc
  have := h c hc
  simp only [Bool.not_eq_true', Bool.or_eq_false_iff, decide_eq_false_iff_not]
  omega

theorem parseQueryHash_query (q : List Char) (hq : ∀ c ∈ q, c ≠ '#') :
    parseQueryHash ('?' :: q) = (q, []) := by
  show (q.takeWhile (fun c => c ≠ '#'),
      match q.dropWhile (fun c => c ≠ '#') with
      | '#' :: h => h
      | _ => []) = (q, [])
  rw [takeWhile_eq_self_all (by intro c hc; simpa using hq c hc),
    dropWhile_eq_nil_all (by intro c hc; simpa using hq c hc)]

/-- A character that may appear in the query part of the well-formed and
throwing fragment families used below. -/
def qsChar (c : Char) : Prop := 32 < c.toNat ∧ c ≠ '#'

instance (c : Char) : Decidable (qsChar c) := by unfold qsChar; infer_instance

/-- Structured parse of a well-formed `https://wplace.live/?<q>` input. -/
theorem jsNewURL_wellformed (q : List Char) (hq : ∀ c ∈ q, qsChar c) :
    jsNewURL (str "https://wplace.live/?" ++ q)
      = some ⟨str "https", str "wplace.live", [], ['/'], q, []⟩ := by
  unfold jsNewURL
  rw [urlTrim_id _ (by
    intro c hc
    rcases List.mem_append.mp hc with hc' | hc'
    · exact (by decide : ∀ c ∈ str "https://wplace.live/?", 32 < c.toNat) c hc'
    · exact (hq c hc').1)]
  have hcore : jsNewURLTrimmed (str "https://wplace.live/?" ++ q)
      = some ⟨str "https", str "wplace.live", [], ['/'],
          (parseQueryHash ('?' :: q)).1, (parseQueryHash ('?' :: q)).2⟩ := rfl
  rw [hcore, parseQueryHash_query q (fun c hc => (hq c hc).2)]

/-- The protocol-stripped fragment `wplace.live/?<q>` never parses as a URL:
the scheme scan hits `/` before any colon. -/
theorem jsNewURL_bare_none (q : List Char) (hq : ∀ c ∈ q, 32 < c.toNat) :
    jsNewURL (str "wplace.live/?" ++ q) = none := by
  unfold jsNewURL
  rw [urlTrim_id _ (by
    intro c hc
    rcases List.mem_append.mp hc with hc' | hc'
    · exact (by decide : ∀ c ∈ str "wplace.live/?", 32 < c.toNat) c hc'
    · exact hq c hc')]
  rfl

/-! ## Regex-match lemmas -/

theorem stripCI_sound : ∀ (pat l x r : List Char), stripCI pat l = some (x, r) →
    l = x ++ r ∧ x.map Char.toLower = pat.map Char.toLower := by
  intro pat
  induction pat with
  | nil =>
    intro l x r h
    simp only [stripCI, Option.some.injEq, Prod.mk.injEq] at h
    obtain ⟨hx, hr⟩ := h
    subst hx
    subst hr
    exact ⟨rfl, rfl⟩
  | cons p ps ih =>
    intro l x r h
    cases l with
    | nil => simp [stripCI] at h
    | cons c cs =>
      rw [stripCI] at h
      split at h
      · next hcp =>
        cases hsc : stripCI ps cs with
        | none => rw [hsc] at h; simp at h
        | some pr =>
          obtain ⟨x', r'⟩ := pr
          rw [hsc] at h
          simp only [Option.map_some', Option.some.injEq, Prod.mk.injEq] at h
          obtain ⟨hx, hr⟩ := h
          subst hx
          subst hr
          obtain ⟨h1, h2⟩ := ih cs x' r' hsc
          subst h1
          exact ⟨rfl, by simp [h2, hcp]⟩
      · simp at h

theorem stripCI_complete : ∀ (pat x r : List Char),
    x.map Char.toLower = pat.map Char.toLower → stripCI pat (x ++ r) = some (x, r) := by
  intro pat
  induction pat with
  | nil =>
    intro x r h
    simp only [List.map_nil, List.map_eq_nil_iff] at h
    subst h
    rfl
  | cons p ps ih =>
    intro x r h
    cases x with
    | nil => simp at h
    | cons c cs =>
      simp only [List.map_cons, List.cons.injEq] at h
      obtain ⟨h1, h2⟩ := h
      rw [List.cons_append, stripCI, if_pos h1, ih cs r h2]
      rfl

theorem stripCI_head_ne {p : Char} (ps : List Char) {c : Char} (cs : List Char)
    (h : c.toLower ≠ p.toLower) : stripCI (p :: ps) (c :: cs) = none := by
  rw [stripCI, if_neg h]

/-- The protocol group of the wplace regex, as matched text. -/
def ciProto (p : List Char) : Prop :=
  p.map Char.toLower = str "https://" ∨ p.map Char.toLower = str "http://" ∨ p = []

/-- The `www.` group of the wplace regex, as matched text. -/
def ciWww (w : List Char) : Prop := w.map Char.toLower = str "www." ∨ w = []

/-- The shape of every match of the wplace URL regex: an optional protocol, an
optional `www.`, the domain literal (all case-insensitively) and a maximal
tail of non-whitespace, non-quote characters. -/
def WplaceShape (m : List Char) : Prop :=
  ∃ p w wl tl, m = p ++ (w ++ (wl ++ tl)) ∧ ciProto p ∧ ciWww w
    ∧ wl.map Char.toLower = str "wplace.live" ∧ ∀ c ∈ tl, isTailChar c = true

theorem wplaceCorePart_shape {l m : List Char} (h : wplaceCorePart l = some m) :
    ∃ wl tl, m = wl ++ tl ∧ wl.map Char.toLower = str "wplace.live"
      ∧ ∀ c ∈ tl, isTailChar c = true := by
  unfold wplaceCorePart at h
  cases hsc : stripCI (str "wplace.live") l with
  | none => rw [hsc] at h; simp at h
  | some lr =>
    obtain ⟨x, r⟩ := lr
    rw [hsc] at h
    simp only [Option.some.injEq] at h
    obtain ⟨-, h2⟩ := stripCI_sound _ _ _ _ hsc
    refine ⟨x, r.takeWhile isTailChar, h.symm, ?_, ?_⟩
    · exact h2.trans (by decide)
    · intro c hc
      exact List.mem_takeWhile_imp hc

theorem wwwCorePart_shape {l m : List Char} (h : wwwCorePart l = some m) :
    ∃ w wl tl, m = w ++ (wl ++ tl) ∧ ciWww w
      ∧ wl.map Char.toLower = str "wplace.live" ∧ ∀ c ∈ tl, isTailChar c = true := by
  unfold wwwCorePart at h
  split at h
  · next wr hsc =>
    obtain ⟨x, r⟩ := wr
    split at h
    · next m2 hcp =>
      simp only [Option.some.injEq] at h
      obtain ⟨wl, tl, hm2, hwl, htl⟩ := wplaceCorePart_shape hcp
      obtain ⟨-, hx⟩ := stripCI_sound _ _ _ _ hsc
      exact ⟨x, wl, tl, by rw [← h, hm2], Or.inl (hx.trans (by decide)), hwl, htl⟩
    · next hcp =>
      obtain ⟨wl, tl, hm, hwl, htl⟩ := wplaceCorePart_shape h
      exact ⟨[], wl, tl, by simpa using hm, Or.inr rfl, hwl, htl⟩
  · next hsc =>
    obtain ⟨wl, tl, hm, hwl, htl⟩ := wplaceCorePart_shape h
    exact ⟨[], wl, tl, by simpa using hm, Or.inr rfl, hwl, htl⟩

theorem matchWplaceAt_shape {l m : List Char} (h : matchWplaceAt l = some m) :
    WplaceShape m := by
  unfold matchWplaceAt at h
  split at h
  · next pr hs =>
    obtain ⟨x, r⟩ := pr
    split at h
    · next m2 hw =>
      simp only [Option.some.injEq] at h
      obtain ⟨w, wl, tl, hm2, hww, hwl, htl⟩ := wwwCorePart_shape hw
      obtain ⟨-, hx⟩ := stripCI_sound _ _ _ _ hs
      exact ⟨x, w, wl, tl, by rw [← h, hm2], Or.inl (hx.trans (by decide)), hww, hwl, htl⟩
    · next hw =>
      obtain ⟨w, wl, tl, hm, hww, hwl, htl⟩ := wwwCorePart_shape h
      exact ⟨[], w, wl, tl, by simpa using hm, Or.inr (Or.inr rfl), hww, hwl, htl⟩
  · next hs =>
    split at h
    · next pr ht =>
      obtain ⟨x, r⟩ := pr
      split at h
      · next m2 hw =>
        simp only [Option.some.injEq] at h
        obtain ⟨w, wl, tl, hm2, hww, hwl, htl⟩ := wwwCorePart_shape hw
        obtain ⟨-, hx⟩ := stripCI_sound _ _ _ _ ht
        exact ⟨x, w, wl, tl, by rw [← h, hm2], Or.inr (Or.inl (hx.trans (by decide))),
          hww, hwl, htl⟩
      · next hw =>
        obtain ⟨w, wl, tl, hm, hww, hwl, htl⟩ := wwwCorePart_shape h
        exact ⟨[], w, wl, tl, by simpa using hm, Or.inr (Or.inr rfl), hww, hwl, htl⟩
    · next ht =>
      obtain ⟨w, wl, tl, hm, hww, hwl, htl⟩ := wwwCorePart_shape h
      exact ⟨[], w, wl, tl, by simpa using hm, Or.inr (Or.inr rfl), hww, hwl, htl⟩

theorem findWplaceMatch_shape : ∀ {t m : List Char},
    findWplaceMatch t = some m → WplaceShape m := by
  intro t
  induction t with
  | nil => intro m h; simp [findWplaceMatch] at h
  | cons c r ih =>
    intro m h
    rw [findWplaceMatch] at h
    split at h
    · next m2 hm =>
      simp only [Option.some.injEq] at h
      subst h
      exact matchWplaceAt_shape hm
    · next hm =>
      exact ih h

theorem map_toLower_cons {x : List Char} {a : Char} {rest : List Char}
    (h : x.map Char.toLower = a :: rest) :
    ∃ c cs, x = c :: cs ∧ c.toLower = a ∧ cs.map Char.toLower = rest := by
  cases x with
  | nil => simp at h
  | cons c cs =>
    simp only [List.map_cons, List.cons.injEq] at h
    exact ⟨c, cs, rfl, h.1, h.2⟩

theorem wplaceCorePart_complete (wl tl : List Char)
    (hwl : wl.map Char.toLower = str "wplace.live") (htl : ∀ c ∈ tl, isTailChar c = true) :
    wplaceCorePart (wl ++ tl) = some (wl ++ tl) := by
  unfold wplaceCorePart
  rw [stripCI_complete (str "wplace.live") wl tl (hwl.trans (by decide))]
  show some (wl ++ tl.takeWhile isTailChar) = some (wl ++ tl)
  rw [takeWhile_eq_self_all htl]

theorem stripCI_www_of_wplace {wl : List Char} (rest : List Char)
    (hwl : wl.map Char.toLower = str "wplace.live") :
    stripCI (str "www.") (wl ++ rest) = none := by
  rw [show str "wplace.live"
      = 'w' :: 'p' :: str "lace.live" from rfl] at hwl
  obtain ⟨c1, cs1, rfl, h1, h1r⟩ := map_toLower_cons hwl
  obtain ⟨c2, cs2, rfl, h2, h2r⟩ := map_toLower_cons h1r
  rw [show str "www." = 'w' :: 'w' :: str "w." from rfl]
  rw [List.cons_append, List.cons_append, stripCI,
    if_pos (h1.trans (by decide)),
    stripCI_head_ne _ _ (by rw [h2]; decide)]
  rfl

theorem wwwCorePart_complete (w wl tl : List Char) (hw : ciWww w)
    (hwl : wl.map Char.toLower = str "wplace.live") (htl : ∀ c ∈ tl, isTailChar c = true) :
    wwwCorePart (w ++ (wl ++ tl)) = some (w ++ (wl ++ tl)) := by
  rcases hw with hww | rfl
  · unfold wwwCorePart
    rw [stripCI_complete (str "www.") w (wl ++ tl) (hww.trans (by decide))]
    show (match wplaceCorePart (wl ++ tl) with
      | some m => some (w ++ m)
      | none => wplaceCorePart (w ++ (wl ++ tl))) = some (w ++ (wl ++ tl))
    rw [wplaceCorePart_complete wl tl hwl htl]
  · rw [List.nil_append]
    unfold wwwCorePart
    rw [stripCI_www_of_wplace tl hwl]
    exact wplaceCorePart_complete wl tl hwl htl

theorem stripCI_proto_fail_http {p : List Char} (rest : List Char)
    (hp : p.map Char.toLower = str "http://") :
    stripCI (str "https://") (p ++ rest) = none := by
  rw [show str "http://" = 'h' :: 't' :: 't' :: 'p' :: ':' :: str "//" from rfl] at hp
  obtain ⟨a1, x1, rfl, h1, hr1⟩ := map_toLower_cons hp
  obtain ⟨a2, x2, rfl, h2, hr2⟩ := map_toLower_cons hr1
  obtain ⟨a3, x3, rfl, h3, hr3⟩ := map_toLower_cons hr2
  obtain ⟨a4, x4, rfl, h4, hr4⟩ := map_toLower_cons hr3
  obtain ⟨a5, x5, rfl, h5, hr5⟩ := map_toLower_cons hr4
  rw [show str "https://" = 'h' :: 't' :: 't' :: 'p' :: 's' :: str "://" from rfl]
  rw [List.cons_append, List.cons_append, List.cons_append, List.cons_append,
    List.cons_append]
  rw [stripCI, if_pos (h1.trans (by decide)),
    stripCI, if_pos (h2.trans (by decide)),
    stripCI, if_pos (h3.trans (by decide)),
    stripCI, if_pos (h4.trans (by decide)),
    stripCI_head_ne _ _ (by rw [h5]; decide)]
  rfl

theorem matchWplaceAt_complete (p w wl tl : List Char)
    (hp : ciProto p) (hw : ciWww w) (hwl : wl.map Char.toLower = str "wplace.live")
    (htl : ∀ c ∈ tl, isTailChar c = true) :
    matchWplaceAt (p ++ (w ++ (wl ++ tl))) = some (p ++ (w ++ (wl ++ tl))) := by
  have hcore := wwwCorePart_complete w wl tl hw hwl htl
  rcases hp with hps | hpt | rfl
  · unfold matchWplaceAt
    rw [stripCI_complete (str "https://") p (w ++ (wl ++ tl)) (hps.trans (by decide))]
    show (match wwwCorePart (w ++ (wl ++ tl)) with
      | some m => some (p ++ m)
      | none => wwwCorePart (p ++ (w ++ (wl ++ tl)))) = _
    rw [hcore]
  · unfold matchWplaceAt
    rw [stripCI_proto_fail_http _ hpt,
      stripCI_complete (str "http://") p (w ++ (wl ++ tl)) (hpt.trans (by decide))]
    show (match wwwCorePart (w ++ (wl ++ tl)) with
      | some m => some (p ++ m)
      | none => wwwCorePart (p ++ (w ++ (wl ++ tl)))) = _
    rw [hcore]
  · -- no protocol: both protocol strips fail on a leading 'w'-class character
    rw [List.nil_append]
    have hhead : ∃ c cs, w ++ (wl ++ tl) = c :: cs ∧ c.toLower = 'w' := by
      rcases hw with hww | rfl
      · rw [show str "www." = 'w' :: str "ww." from rfl] at hww
        obtain ⟨c, cs, rfl, h1, -⟩ := map_toLower_cons hww
        exact ⟨c, cs ++ (wl ++ tl), rfl, h1⟩
      · rw [show str "wplace.live" = 'w' :: str "place.live" from rfl] at hwl
        obtain ⟨c, cs, hwle, h1, -⟩ := map_toLower_cons hwl
        rw [List.nil_append, hwle]
        exact ⟨c, cs ++ tl, rfl, h1⟩
    obtain ⟨c, cs, hcs, hcw⟩ := hhead
    rw [hcs] at hcore
    unfold matchWplaceAt
    rw [hcs,
      show str "https://" = 'h' :: str "ttps://" from rfl,
      stripCI_head_ne _ _ (by rw [hcw]; decide),
      show str "http://" = 'h' :: str "ttp://" from rfl,
      stripCI_head_ne _ _ (by rw [hcw]; decide)]
    exact hcore

theorem findWplaceMatch_complete (p w wl tl : List Char)
    (hp : ciProto p) (hw : ciWww w) (hwl : wl.map Char.toLower = str "wplace.live")
    (htl : ∀ c ∈ tl, isTailChar c = true) :
    findWplaceMatch (p ++ (w ++ (wl ++ tl))) = some (p ++ (w ++ (wl ++ tl))) := by
  have hm := matchWplaceAt_complete p w wl tl hp hw hwl htl
  have hne : p ++ (w ++ (wl ++ tl)) ≠ [] := by
    intro he
    rcases List.append_eq_nil.mp he with ⟨-, he2⟩
    rcases List.append_eq_nil.mp he2 with ⟨-, he3⟩
    rcases List.append_eq_nil.mp he3 with ⟨he4, -⟩
    rw [he4] at hwl
    simp [str] at hwl
  obtain ⟨c, r, hcr⟩ := List.exists_cons_of_ne_nil hne
  rw [hcr] at hm ⊢
  rw [findWplaceMatch, hm]

example : extractAndFormatUrl (str "visit https://wplace.live/?lat=12.345678&lng=-98.7654&zoom=5 now")
    = some (str "wplace.live/?lat=12.346&lng=-98.765&zoom=5") := by decide
example : extractAndFormatUrl (str "hello world") = none := by decide
example : extractAndFormatUrl (str "wplace.live/?lat=12.3") = none := by decide
example : extractAndFormatUrl (str "wplace.live/?lat=Infinity&lng=5")
    = some (str "wplace.live/?lat=null&lng=5") := by decide
example : extractAndFormatUrl (str "wplace.live/?lat=null&lng=5") = none := by decide
example : extractAndFormatUrl (str "https://wplace.live/?lat=1&lng=2&zoom=5.6789")
    = some (str "wplace.live/?lat=1&lng=2&zoom=5.679") := by decide
example : extractAndFormatUrl (str "wplace.live/?lat=1&lng=2&zoom=5.6789")
    = some (str "wplace.live/?lat=1&lng=2&zoom=5.6789") := by decide
example : extractAndFormatUrl (str "wplace.live/?lat=1&lng=2&zoom=a%20b")
    = some (str "wplace.live/?lat=1&lng=2&zoom=a b") := by decide
example : extractAndFormatUrl (str "wplace.live/?lat=1&lng=2&zoom=a b")
    = some (str "wplace.live/?lat=1&lng=2&zoom=a") := by decide
example : normalizeAndRoundUrl (str "wplace.live/?lat=12.3abc&lng=4")
    = some (str "wplace.live/?lat=null&lng=4") := by decide
example : extractAndFormatUrl (str "wplace.live/?lat=12.3abc&lng=4")
    = some (str "wplace.live/?lat=12.3&lng=4") := by decide
example : normalizeAndRoundUrl (str "https://wplace.live/?lat=1&lng=2&zoom=5.6789")
    = some (str "wplace.live/?lat=1&lng=2&zoom=5.6789") := by decide

/-! ## URL-parse lemmas for shaped inputs -/

theorem char_eq_of_toNat {c d : Char} (h : c.toNat = d.toNat) : c = d := by
  rw [← Char.ofNat_toNat c, ← Char.ofNat_toNat d, h]

theorem toLower_toNat_cases {c d : Char} (h : c.toLower = d) :
    c.toNat = d.toNat ∨ (65 ≤ c.toNat ∧ c.toNat ≤ 90 ∧ c.toNat + 32 = d.toNat) := by
  have ht := toLower_toNat c
  rw [h] at ht
  split at ht
  · right; omega
  · left; omega

/-- A character whose lowercase form is below the lowercase-letter range is
already lowercase. -/
theorem toLower_eq_fixed {c d : Char} (h : c.toLower = d) (hd : d.toNat < 97) : c = d := by
  rcases toLower_toNat_cases h with h' | h'
  · exact char_eq_of_toNat h'
  · exact absurd hd (by omega)

/-- Characters of the (case-insensitive) protocol prefixes are printable and
are not tab, LF or CR. -/
theorem proto_char_tame {c : Char} (h : 46 ≤ c.toLower.toNat) :
    32 < c.toNat ∧ c.toNat ≠ 9 ∧ c.toNat ≠ 10 ∧ c.toNat ≠ 13 := by
  have ht := toLower_toNat c
  split at ht <;> omega

theorem asciiAlpha_of_toLower {c d : Char} (h : c.toLower = d)
    (hd : 97 ≤ d.toNat ∧ d.toNat ≤ 122) : isAsciiAlpha c = true := by
  rcases toLower_toNat_cases h with h' | h' <;>
  · simp only [isAsciiAlpha, Bool.or_eq_true, Bool.and_eq_true, decide_eq_true_eq]
    omega

theorem schemeChar_of_toLower {c d : Char} (h : c.toLower = d)
    (hd : 97 ≤ d.toNat ∧ d.toNat ≤ 122) : isSchemeChar c = true := by
  rcases toLower_toNat_cases h with h' | h' <;>
  · simp only [isSchemeChar, isDigitC, Bool.or_eq_true, Bool.and_eq_true, decide_eq_true_eq]
    omega

theorem dropWhile_cons_false {p : Char → Bool} {a : Char} (l : List Char) (h : p a = false) :
    (a :: l).dropWhile p = a :: l := by
  rw [List.dropWhile_cons, h]
  rfl

/-- Dropping a prefix cannot reach past a failing character. -/
theorem dropWhile_append_of_head_false {p : Char → Bool} {a : Char} {B : List Char}
    (Y : List Char) (h : p a = false) :
    ∃ Y', (Y ++ (a :: B)).dropWhile p = Y' ++ (a :: B) := by
  induction Y with
  | nil => exact ⟨[], by rw [List.nil_append, dropWhile_cons_false B h]⟩
  | cons y Y ih =>
    cases hy : p y with
    | false => exact ⟨y :: Y, by rw [List.cons_append, dropWhile_cons_false _ hy]⟩
    | true =>
      obtain ⟨Y', hY'⟩ := ih
      refine ⟨Y', ?_⟩
      rw [List.cons_append, List.dropWhile_cons, hy, if_pos rfl]
      exact hY'

/-- `urlTrim` keeps a leading run of printable, non-tab characters intact. -/
theorem urlTrim_append {A : List Char} (X : List Char)
    (hA : ∀ c ∈ A, 32 < c.toNat ∧ c.toNat ≠ 9 ∧ c.toNat ≠ 10 ∧ c.toNat ≠ 13)
    (hA0 : A ≠ []) :
    ∃ X', urlTrim (A ++ X) = A ++ X' := by
  have hq : ∀ c ∈ A, (fun c => !(c.toNat = 9 || c.toNat = 10 || c.toNat = 13)) c = true := by
    intro c hc
    have h' := hA c hc
    simp only [Bool.not_eq_true', Bool.or_eq_false_iff, decide_eq_false_iff_not]
    omega
  have hp1 : ∀ c ∈ A, (fun c => decide (c.toNat ≤ 32)) c = false := by
    intro c hc
    have h' := hA c hc
    simp only [decide_eq_false_iff_not]
    omega
  obtain ⟨a, A₁, rfl⟩ : ∃ a A₁, A = a :: A₁ := by
    cases A with
    | nil => exact absurd rfl hA0
    | cons a A₁ => exact ⟨a, A₁, rfl⟩
  obtain ⟨b, B, hrev⟩ : ∃ b B, (a :: A₁).reverse = b :: B := by
    cases hr : (a :: A₁).reverse with
    | nil => exact absurd (List.reverse_eq_nil_iff.mp hr) (by simp)
    | cons b B => exact ⟨b, B, rfl⟩
  have hb : (fun c => decide (c.toNat ≤ 32)) b = false :=
    hp1 b (List.mem_reverse.mp (hrev ▸ List.mem_cons_self b B))
  obtain ⟨Y, hY⟩ :=
    dropWhile_append_of_head_false (p := fun c => decide (c.toNat ≤ 32)) X.reverse hb
  refine ⟨(Y.reverse).filter (fun c => !(c.toNat = 9 || c.toNat = 10 || c.toNat = 13)), ?_⟩
  unfold urlTrim
  rw [List.cons_append, dropWhile_cons_false _ (hp1 a (List.mem_cons_self a A₁)),
    ← List.cons_append, List.reverse_append, hrev, hY, List.reverse_append, ← hrev,
    List.reverse_reverse, List.filter_append, List.filter_eq_self.mpr hq]

/-- The scheme scan on a case-insensitive `https://` prefix. -/
theorem parseScheme_https {p : List Char} (X : List Char)
    (hp : p.map Char.toLower = str "https://") :
    parseScheme (p ++ X) = some (str "https", str "//" ++ X) := by
  rw [show str "https://" = 'h' :: 't' :: 't' :: 'p' :: 's' :: ':' :: '/' :: '/' :: [] from rfl] at hp
  obtain ⟨c1, p1, rfl, h1, hp1⟩ := map_toLower_cons hp
  obtain ⟨c2, p2, rfl, h2, hp2⟩ := map_toLower_cons hp1
  obtain ⟨c3, p3, rfl, h3, hp3⟩ := map_toLower_cons hp2
  obtain ⟨c4, p4, rfl, h4, hp4⟩ := map_toLower_cons hp3
  obtain ⟨c5, p5, rfl, h5, hp5⟩ := map_toLower_cons hp4
  obtain ⟨c6, p6, rfl, h6, hp6⟩ := map_toLower_cons hp5
  obtain ⟨c7, p7, rfl, h7, hp7⟩ := map_toLower_cons hp6
  obtain ⟨c8, p8, rfl, h8, hp8⟩ := map_toLower_cons hp7
  obtain rfl : p8 = [] := by simpa using hp8
  obtain rfl : c6 = ':' := toLower_eq_fixed h6 (by decide)
  obtain rfl : c7 = '/' := toLower_eq_fixed h7 (by decide)
  obtain rfl : c8 = '/' := toLower_eq_fixed h8 (by decide)
  have e := asciiAlpha_of_toLower h1 (by decide)
  have s1 := schemeChar_of_toLower h1 (by decide)
  have s2 := schemeChar_of_toLower h2 (by decide)
  have s3 := schemeChar_of_toLower h3 (by decide)
  have s4 := schemeChar_of_toLower h4 (by decide)
  have s5 := schemeChar_of_toLower h5 (by decide)
  have e6 : isSchemeChar ':' = false := by decide
  have ht : ((c1 :: c2 :: c3 :: c4 :: c5 :: ':' :: '/' :: '/' :: [] : List Char) ++ X).takeWhile isSchemeChar
      = [c1, c2, c3, c4, c5] := by
    simp [List.takeWhile_cons, s1, s2, s3, s4, s5, e6]
  have hd : ((c1 :: c2 :: c3 :: c4 :: c5 :: ':' :: '/' :: '/' :: [] : List Char) ++ X).dropWhile isSchemeChar
      = ':' :: '/' :: '/' :: X := by
    simp [List.dropWhile_cons, s1, s2, s3, s4, s5, e6]
  unfold parseScheme
  rw [ht, hd]
  show (if isAsciiAlpha c1 = true then
      some (([c1, c2, c3, c4, c5]).map Char.toLower, '/' :: '/' :: X) else none)
    = some (str "https", str "//" ++ X)
  rw [if_pos e]
  simp only [List.map_cons, List.map_nil, h1, h2, h3, h4, h5]
  rfl

/-- The scheme scan on a case-insensitive `http://` prefix. -/
theorem parseScheme_http {p : List Char} (X : List Char)
    (hp : p.map Char.toLower = str "http://") :
    parseScheme (p ++ X) = some (str "http", str "//" ++ X) := by
  rw [show str "http://" = 'h' :: 't' :: 't' :: 'p' :: ':' :: '/' :: '/' :: [] from rfl] at hp
  obtain ⟨c1, p1, rfl, h1, hp1⟩ := map_toLower_cons hp
  obtain ⟨c2, p2, rfl, h2, hp2⟩ := map_toLower_cons hp1
  obtain ⟨c3, p3, rfl, h3, hp3⟩ := map_toLower_cons hp2
  obtain ⟨c4, p4, rfl, h4, hp4⟩ := map_toLower_cons hp3
  obtain ⟨c5, p5, rfl, h5, hp5⟩ := map_toLower_cons hp4
  obtain ⟨c6, p6, rfl, h6, hp6⟩ := map_toLower_cons hp5
  obtain ⟨c7, p7, rfl, h7, hp7⟩ := map_toLower_cons hp6
  obtain rfl : p7 = [] := by simpa using hp7
  obtain rfl : c5 = ':' := toLower_eq_fixed h5 (by decide)
  obtain rfl : c6 = '/' := toLower_eq_fixed h6 (by decide)
  obtain rfl : c7 = '/' := toLower_eq_fixed h7 (by decide)
  have e := asciiAlpha_of_toLower h1 (by decide)
  have s1 := schemeChar_of_toLower h1 (by decide)
  have s2 := schemeChar_of_toLower h2 (by decide)
  have s3 := schemeChar_of_toLower h3 (by decide)
  have s4 := schemeChar_of_toLower h4 (by decide)
  have e6 : isSchemeChar ':' = false := by decide
  have ht : ((c1 :: c2 :: c3 :: c4 :: ':' :: '/' :: '/' :: [] : List Char) ++ X).takeWhile isSchemeChar
      = [c1, c2, c3, c4] := by
    simp [List.takeWhile_cons, s1, s2, s3, s4, e6]
  have hd : ((c1 :: c2 :: c3 :: c4 :: ':' :: '/' :: '/' :: [] : List Char) ++ X).dropWhile isSchemeChar
      = ':' :: '/' :: '/' :: X := by
    simp [List.dropWhile_cons, s1, s2, s3, s4, e6]
  unfold parseScheme
  rw [ht, hd]
  show (if isAsciiAlpha c1 = true then
      some (([c1, c2, c3, c4]).map Char.toLower, '/' :: '/' :: X) else none)
    = some (str "http", str "//" ++ X)
  rw [if_pos e]
  simp only [List.map_cons, List.map_nil, h1, h2, h3, h4]
  rfl

/-- Lowercasing cannot introduce a forbidden host character. -/
theorem toLower_not_forbidden {c : Char} (h : isForbiddenHostChar c = false) :
    isForbiddenHostChar c.toLower = false := by
  have ht := toLower_toNat c
  simp only [isForbiddenHostChar, Bool.or_eq_false_iff, decide_eq_false_iff_not] at h ⊢
  by_cases hc : 65 ≤ c.toNat ∧ c.toNat ≤ 90
  · rw [if_pos hc] at ht
    omega
  · rw [if_neg hc] at ht
    omega

/-- A successfully parsed host is non-empty and free of forbidden
characters. -/
theorem parseHostPort_host {dp : Nat} {auth : List Char} {hp : List Char × List Char}
    (h : parseHostPort dp auth = some hp) :
    hp.1 ≠ [] ∧ ∀ c ∈ hp.1, isForbiddenHostChar c = false := by
  unfold parseHostPort at h
  by_cases h1 : (hostPortSplit auth).1 = []
  · rw [if_pos h1] at h
    exact absurd h (by simp)
  · rw [if_neg h1] at h
    by_cases h2 : (hostPortSplit auth).1.any isForbiddenHostChar = true
    · rw [if_pos h2] at h
      exact absurd h (by simp)
    · rw [if_neg h2] at h
      cases hpo : portOf dp (hostPortSplit auth).2 with
      | none =>
        rw [hpo] at h
        exact absurd h (by simp)
      | some port =>
        rw [hpo] at h
        injection h with h
        subst h
        have hforb' : (hostPortSplit auth).1.any isForbiddenHostChar = false := by
          revert h2
          cases (hostPortSplit auth).1.any isForbiddenHostChar <;> simp
        constructor
        · show (hostPortSplit auth).1.map Char.toLower ≠ []
          simp only [ne_eq, List.map_eq_nil_iff]
          exact h1
        · intro c hc
          obtain ⟨d, hd, rfl⟩ := List.mem_map.mp hc
          have hdf : isForbiddenHostChar d = false := by
            rw [List.any_eq_false] at hforb'
            have h3 := hforb' d hd
            revert h3
            cases isForbiddenHostChar d <;> simp
          exact toLower_not_forbidden hdf

/-- A successful special-URL parse records the scheme and a validated,
non-empty host. -/
theorem specialURL_host {sch rest : List Char} {u : JsURL}
    (h : specialURL sch rest = some u) :
    u.scheme = sch ∧ u.host ≠ [] ∧ ∀ c ∈ u.host, isForbiddenHostChar c = false := by
  unfold specialURL at h
  split at h
  · exact absurd h (by simp)
  · next hp hps =>
    injection h with h
    subst h
    have hh := parseHostPort_host hps
    exact ⟨rfl, hh.1, hh.2⟩

/-- A parse whose scheme scan yields a case-insensitive protocol prefix goes
through the special branch and validates its host. -/
theorem jsNewURLTrimmed_proto {l X : List Char} {u : JsURL}
    (hps : parseScheme l = some (str "https", str "//" ++ X)
      ∨ parseScheme l = some (str "http", str "//" ++ X))
    (h : jsNewURLTrimmed l = some u) :
    u.host ≠ [] ∧ ∀ c ∈ u.host, isForbiddenHostChar c = false := by
  unfold jsNewURLTrimmed at h
  rcases hps with hps | hps <;> rw [hps] at h
  · have h2 : specialURL (str "https") (str "//" ++ X) = some u := h
    exact (specialURL_host h2).2
  · have h2 : specialURL (str "http") (str "//" ++ X) = some u := h
    exact (specialURL_host h2).2

/-- `/^https?:\/\//i.test` accepts every case-insensitive protocol prefix. -/
theorem hasProtoCI_true_of_proto {p : List Char} (rest : List Char)
    (hp : p.map Char.toLower = str "https://" ∨ p.map Char.toLower = str "http://") :
    hasProtoCI (p ++ rest) = true := by
  unfold hasProtoCI
  rcases hp with h | h
  · rw [stripCI_complete _ p rest (h.trans (by decide))]
    rfl
  · rw [stripCI_proto_fail_http rest h,
      stripCI_complete (str "http://") p rest (h.trans (by decide))]
    rfl

/-- `/^https?:\/\//i.test` rejects a string whose head lowers to `w`. -/
theorem hasProtoCI_false_of_w {c : Char} (cs : List Char) (hc : c.toLower = 'w') :
    hasProtoCI (c :: cs) = false := by
  unfold hasProtoCI
  rw [show str "https://" = 'h' :: str "ttps://" from rfl,
    stripCI_head_ne _ _ (by rw [hc]; decide),
    show str "http://" = 'h' :: str "ttp://" from rfl,
    stripCI_head_ne _ _ (by rw [hc]; decide)]
  rfl

/-- Stripping the protocol removes exactly a case-insensitive protocol
prefix. -/
theorem stripProtoCI_proto {p : List Char} (rest : List Char)
    (hp : p.map Char.toLower = str "https://" ∨ p.map Char.toLower = str "http://") :
    stripProtoCI (p ++ rest) = rest := by
  unfold stripProtoCI
  rcases hp with h | h
  · rw [stripCI_complete _ p rest (h.trans (by decide))]
  · rw [stripCI_proto_fail_http rest h,
      stripCI_complete (str "http://") p rest (h.trans (by decide))]

/-- Stripping the protocol from a string whose head lowers to `w` is the
identity. -/
theorem stripProtoCI_w {c : Char} (cs : List Char) (hc : c.toLower = 'w') :
    stripProtoCI (c :: cs) = c :: cs := by
  unfold stripProtoCI
  rw [show str "https://" = 'h' :: str "ttps://" from rfl,
    stripCI_head_ne _ _ (by rw [hc]; decide),
    show str "http://" = 'h' :: str "ttp://" from rfl,
    stripCI_head_ne _ _ (by rw [hc]; decide)]

/-- The optional-`www.` plus domain part of a regex match starts with a
character that lowers to `w`. -/
theorem shape_whead {w wl : List Char} (tl : List Char) (hw : ciWww w)
    (hwl : wl.map Char.toLower = str "wplace.live") :
    ∃ c cs, w ++ (wl ++ tl) = c :: cs ∧ c.toLower = 'w' := by
  rcases hw with hw | rfl
  · rw [show str "www." = 'w' :: 'w' :: 'w' :: '.' :: [] from rfl] at hw
    obtain ⟨c, cs', rfl, h1, -⟩ := map_toLower_cons hw
    exact ⟨c, cs' ++ (wl ++ tl), by simp, h1⟩
  · rw [show str "wplace.live" = 'w' :: str "place.live" from rfl] at hwl
    obtain ⟨c, cs', rfl, h1, -⟩ := map_toLower_cons hwl
    exact ⟨c, cs' ++ tl, by simp, h1⟩

/-- The success template always yields a non-empty string. -/
theorem buildResult_ne_nil (a b : Option (List Char)) (zp : List Char) :
    buildResult a b zp ≠ [] := by
  intro h
  unfold buildResult at h
  rw [show str "wplace.live/?lat=" = 'w' :: str "place.live/?lat=" from rfl] at h
  simp at h

/-- The structured normalizer branch never returns `none`. -/
theorem normStructured_some (u : JsURL) : ∃ s, normStructured u = some s := by
  unfold normStructured
  split
  · exact ⟨_, rfl⟩
  · exact ⟨_, rfl⟩

/-- With a validated host, the structured normalizer branch never returns an
empty string. -/
theorem normStructured_ne_nil {u : JsURL} (hhost : u.host ≠ [])
    (hforb : ∀ c ∈ u.host, isForbiddenHostChar c = false) :
    ∀ s, normStructured u = some s → s ≠ [] := by
  intro s hs
  unfold normStructured at hs
  split at hs
  · injection hs with hs
    subst hs
    exact buildResult_ne_nil _ _ _
  · injection hs with hs
    subst hs
    obtain ⟨c, cs, hc⟩ : ∃ c cs, u.host = c :: cs := by
      cases hu : u.host with
      | nil => exact absurd hu hhost
      | cons c cs => exact ⟨c, cs, rfl⟩
    have hcf : isForbiddenHostChar c = false := hforb c (hc ▸ List.mem_cons_self c cs)
    have hcne : ¬(c = '/') := by
      intro he
      subst he
      exact absurd hcf (by decide)
    unfold withoutProto JsURL.hostPort
    rw [hc]
    simp only [List.cons_append, List.append_assoc, List.dropWhile_cons]
    rw [if_neg (by simp only [decide_eq_true_eq]; exact hcne)]
    exact List.cons_ne_nil _ _

/-- The regex-fallback normalizer branch returns a non-empty string when its
input starts with a character that lowers to `w`. -/
theorem normFallback_ne_nil {c : Char} {cs : List Char} (hc : c.toLower = 'w') :
    ∀ s, normFallback (c :: cs) = some s → s ≠ [] := by
  intro s hs
  unfold normFallback at hs
  split at hs
  · injection hs with hs
    subst hs
    exact buildResult_ne_nil _ _ _
  · injection hs with hs
    subst hs
    have hcne : c ≠ '/' := by
      intro he
      rw [he] at hc
      exact absurd hc (by decide)
    rw [if_neg ?hpre]
    case hpre =>
      intro hpre
      rw [show str "//" = '/' :: '/' :: [] from rfl] at hpre
      simp only [List.isPrefixOf, Bool.and_eq_true, beq_iff_eq] at hpre
      exact hcne hpre.1.symm
    exact List.cons_ne_nil c cs

theorem normCore_some {raw : List Char} {u : JsURL}
    (h : jsNewURL (if hasProtoCI raw then raw else str "https://" ++ raw) = some u) :
    normCore raw = normStructured u := by
  unfold normCore
  rw [h]

theorem normCore_none {raw : List Char}
    (h : jsNewURL (if hasProtoCI raw then raw else str "https://" ++ raw) = none) :
    normCore raw = normFallback (stripProtoCI raw) := by
  unfold normCore
  rw [h]

/-- A successful, non-empty normalization makes the click handler copy. -/
theorem clickHandler_of_normalize {raw s : List Char}
    (h : normalizeAndRoundUrl raw = some s) (hs : s ≠ []) :
    clickHandlerOutcome (some raw) = .copied s := by
  show (match normalizeAndRoundUrl raw with
    | none => ClickOutcome.failToast
    | some s => if s = [] then ClickOutcome.failToast else ClickOutcome.copied s) = .copied s
  rw [h]
  show (if s = [] then ClickOutcome.failToast else ClickOutcome.copied s) = .copied s
  rw [if_neg hs]

theorem normFallback_some_ne {c : Char} {cs : List Char} (hc : c.toLower = 'w') :
    ∃ s, normFallback (c :: cs) = some s ∧ s ≠ [] := by
  cases hnf : normFallback (c :: cs) with
  | none =>
    exfalso
    unfold normFallback at hnf
    split at hnf <;> exact absurd hnf (by simp)
  | some s => exact ⟨s, rfl, normFallback_ne_nil hc s hnf⟩

theorem normStructured_some_ne {u : JsURL} (hhost : u.host ≠ [])
    (hforb : ∀ c ∈ u.host, isForbiddenHostChar c = false) :
    ∃ s, normStructured u = some s ∧ s ≠ [] := by
  obtain ⟨s, hns⟩ := normStructured_some u
  exact ⟨s, hns, normStructured_ne_nil hhost hforb s hns⟩

/-- On every string of the regex-match shape — optional case-insensitive
protocol, then a part starting with a `w`-class character — the interceptor's
normalizer succeeds with a non-empty result. -/
theorem normalize_of_shape (p : List Char) (c0 : Char) (cs0 : List Char)
    (hp : ciProto p) (hc0 : c0.toLower = 'w') :
    ∃ s, normalizeAndRoundUrl (p ++ (c0 :: cs0)) = some s ∧ s ≠ [] := by
  have hc0t : 32 < c0.toNat ∧ c0.toNat ≠ 9 ∧ c0.toNat ≠ 10 ∧ c0.toNat ≠ 13 :=
    proto_char_tame (by rw [hc0]; decide)
  have hraw_ne : p ++ (c0 :: cs0) ≠ [] := by simp
  unfold normalizeAndRoundUrl
  rw [if_neg hraw_ne]
  rcases hp with hps | hps | rfl
  · have hproto := hasProtoCI_true_of_proto (c0 :: cs0) (Or.inl hps)
    have hstrip := stripProtoCI_proto (c0 :: cs0) (Or.inl hps)
    have hA : ∀ ch ∈ p ++ [c0],
        32 < ch.toNat ∧ ch.toNat ≠ 9 ∧ ch.toNat ≠ 10 ∧ ch.toNat ≠ 13 := by
      intro ch hch
      rcases List.mem_append.mp hch with hch | hch
      · refine proto_char_tame ?_
        have hm := List.mem_map_of_mem Char.toLower hch
        rw [hps] at hm
        exact (by decide : ∀ d ∈ str "https://", 46 ≤ d.toNat) _ hm
      · rw [List.mem_singleton] at hch
        subst hch
        exact hc0t
    obtain ⟨X', htr⟩ := urlTrim_append cs0 hA (by simp)
    have htr' : urlTrim (p ++ (c0 :: cs0)) = p ++ (c0 :: X') := by
      have e1 : (p ++ [c0]) ++ cs0 = p ++ (c0 :: cs0) := by simp
      have e2 : (p ++ [c0]) ++ X' = p ++ (c0 :: X') := by simp
      rw [e1, e2] at htr
      exact htr
    cases hjs : jsNewURL (if hasProtoCI (p ++ (c0 :: cs0)) then p ++ (c0 :: cs0)
        else str "https://" ++ (p ++ (c0 :: cs0))) with
    | some u =>
      rw [normCore_some hjs]
      rw [if_pos hproto] at hjs
      unfold jsNewURL at hjs
      rw [htr'] at hjs
      have hps2 := parseScheme_https (c0 :: X') hps
      have hhost := jsNewURLTrimmed_proto (Or.inl hps2) hjs
      exact normStructured_some_ne hhost.1 hhost.2
    | none =>
      rw [normCore_none hjs, hstrip]
      exact normFallback_some_ne hc0
  · have hproto := hasProtoCI_true_of_proto (c0 :: cs0) (Or.inr hps)
    have hstrip := stripProtoCI_proto (c0 :: cs0) (Or.inr hps)
    have hA : ∀ ch ∈ p ++ [c0],
        32 < ch.toNat ∧ ch.toNat ≠ 9 ∧ ch.toNat ≠ 10 ∧ ch.toNat ≠ 13 := by
      intro ch hch
      rcases List.mem_append.mp hch with hch | hch
      · refine proto_char_tame ?_
        have hm := List.mem_map_of_mem Char.toLower hch
        rw [hps] at hm
        exact (by decide : ∀ d ∈ str "http://", 46 ≤ d.toNat) _ hm
      · rw [List.mem_singleton] at hch
        subst hch
        exact hc0t
    obtain ⟨X', htr⟩ := urlTrim_append cs0 hA (by simp)
    have htr' : urlTrim (p ++ (c0 :: cs0)) = p ++ (c0 :: X') := by
      have e1 : (p ++ [c0]) ++ cs0 = p ++ (c0 :: cs0) := by simp
      have e2 : (p ++ [c0]) ++ X' = p ++ (c0 :: X') := by simp
      rw [e1, e2] at htr
      exact htr
    cases hjs : jsNewURL (if hasProtoCI (p ++ (c0 :: cs0)) then p ++ (c0 :: cs0)
        else str "https://" ++ (p ++ (c0 :: cs0))) with
    | some u =>
      rw [normCore_some hjs]
      rw [if_pos hproto] at hjs
      unfold jsNewURL at hjs
      rw [htr'] at hjs
      have hps2 := parseScheme_http (c0 :: X') hps
      have hhost := jsNewURLTrimmed_proto (Or.inr hps2) hjs
      exact normStructured_some_ne hhost.1 hhost.2
    | none =>
      rw [normCore_none hjs, hstrip]
      exact normFallback_some_ne hc0
  · rw [List.nil_append]
    have hproto := hasProtoCI_false_of_w cs0 hc0
    have hstrip := stripProtoCI_w cs0 hc0
    have hA : ∀ ch ∈ str "https://" ++ [c0],
        32 < ch.toNat ∧ ch.toNat ≠ 9 ∧ ch.toNat ≠ 10 ∧ ch.toNat ≠ 13 := by
      intro ch hch
      rcases List.mem_append.mp hch with hch | hch
      · exact (by decide : ∀ d ∈ str "https://",
          32 < d.toNat ∧ d.toNat ≠ 9 ∧ d.toNat ≠ 10 ∧ d.toNat ≠ 13) _ hch
      · rw [List.mem_singleton] at hch
        subst hch
        exact hc0t
    obtain ⟨X', htr⟩ := urlTrim_append cs0 hA (by simp)
    have htr' : urlTrim (str "https://" ++ (c0 :: cs0)) = str "https://" ++ (c0 :: X') := by
      have e1 : (str "https://" ++ [c0]) ++ cs0 = str "https://" ++ (c0 :: cs0) := by simp
      have e2 : (str "https://" ++ [c0]) ++ X' = str "https://" ++ (c0 :: X') := by simp
      rw [e1, e2] at htr
      exact htr
    cases hjs : jsNewURL (if hasProtoCI (c0 :: cs0) then c0 :: cs0
        else str "https://" ++ (c0 :: cs0)) with
    | some u =>
      rw [normCore_some hjs]
      rw [if_neg (by simp [hproto])] at hjs
      unfold jsNewURL at hjs
      rw [htr'] at hjs
      have hps2 := parseScheme_https (c0 :: X')
        (by decide : (str "https://").map Char.toLower = str "https://")
      have hhost := jsNewURLTrimmed_proto (Or.inl hps2) hjs
      exact normStructured_some_ne hhost.1 hhost.2
    | none =>
      rw [normCore_none hjs, hstrip]
      exact normFallback_some_ne hc0

/-! ## Path lemmas for the two fragment families -/

/-- `new URLSearchParams` on a string that does not start with `?` is plain
query-string parsing. -/
theorem newSearchParams_no_q {qs : List Char} (h : qs.head? ≠ some '?') :
    newSearchParams qs = parseQS qs := by
  unfold newSearchParams
  split
  · next r => simp at h
  · rfl

/-- A protocol-less well-formed fragment takes the structured branch on the
query parameters of the completed URL. -/
theorem extract_wellformed_structured (qs : List Char)
    (hq : ∀ c ∈ qs, qsChar c ∧ isTailChar c = true) :
    extractAndFormatUrl (str "wplace.live/?" ++ qs) = extractStructured (parseQS qs) := by
  have htl : ∀ c ∈ str "/?" ++ qs, isTailChar c = true := by
    intro c hc
    rcases List.mem_append.mp hc with hc | hc
    · exact (by decide : ∀ c ∈ str "/?", isTailChar c = true) c hc
    · exact (hq c hc).2
  have hfm : findWplaceMatch (str "wplace.live/?" ++ qs)
      = some (str "wplace.live/?" ++ qs) :=
    findWplaceMatch_complete [] [] (str "wplace.live") (str "/?" ++ qs)
      (Or.inr (Or.inr rfl)) (Or.inr rfl) (by decide) htl
  have hjs : jsNewURL ((if hasProtoCI (str "wplace.live/?" ++ qs) then []
        else str "https://") ++ stripProtoCS (str "wplace.live/?" ++ qs))
      = some ⟨str "https", str "wplace.live", [], ['/'], qs, []⟩ :=
    jsNewURL_wellformed qs (fun c hc => (hq c hc).1)
  have hne : str "wplace.live/?" ++ qs ≠ [] :=
    List.cons_ne_nil 'w' (str "place.live/?" ++ qs)
  unfold extractAndFormatUrl
  rw [if_neg hne, hfm]
  show extractCore (str "wplace.live/?" ++ qs) = extractStructured (parseQS qs)
  unfold extractCore
  rw [hjs]
  rfl

/-- A protocol-carrying fragment strips to a scheme-less string, the
structured parse throws, and the manual fallback runs on the stripped
fragment. -/
theorem extract_throwing_fallback (qs : List Char)
    (hq : ∀ c ∈ qs, qsChar c ∧ isTailChar c = true) :
    extractAndFormatUrl (str "https://wplace.live/?" ++ qs)
      = extractFallback (str "wplace.live/?" ++ qs) := by
  have htl : ∀ c ∈ str "/?" ++ qs, isTailChar c = true := by
    intro c hc
    rcases List.mem_append.mp hc with hc | hc
    · exact (by decide : ∀ c ∈ str "/?", isTailChar c = true) c hc
    · exact (hq c hc).2
  have hfm : findWplaceMatch (str "https://wplace.live/?" ++ qs)
      = some (str "https://wplace.live/?" ++ qs) :=
    findWplaceMatch_complete (str "https://") [] (str "wplace.live") (str "/?" ++ qs)
      (Or.inl (by decide)) (Or.inr rfl) (by decide) htl
  have hjs : jsNewURL ((if hasProtoCI (str "https://wplace.live/?" ++ qs) then []
        else str "https://") ++ stripProtoCS (str "https://wplace.live/?" ++ qs)) = none :=
    jsNewURL_bare_none qs (fun c hc => (hq c hc).1.1)
  have hne : str "https://wplace.live/?" ++ qs ≠ [] :=
    List.cons_ne_nil 'h' (str "ttps://wplace.live/?" ++ qs)
  unfold extractAndFormatUrl
  rw [if_neg hne, hfm]
  show extractCore (str "https://wplace.live/?" ++ qs)
    = extractFallback (str "wplace.live/?" ++ qs)
  unfold extractCore
  rw [hjs]
  rfl

/-- The structured branch with present, parseable lat and lng: lat and lng are
rounded, the zoom is appended raw. -/
theorem extractStructured_pos {ps : List (List Char × List Char)}
    (hlat : spHas ps (str "lat") = true) (hlng : spHas ps (str "lng") = true)
    (hlatN : (jsParseFloat ((spGet ps (str "lat")).getD [])).isNaNb = false)
    (hlngN : (jsParseFloat ((spGet ps (str "lng")).getD [])).isNaNb = false) :
    extractStructured ps
      = some (buildResult (round3Num (jsParseFloat ((spGet ps (str "lat")).getD [])))
          (round3Num (jsParseFloat ((spGet ps (str "lng")).getD [])))
          (zoomRaw (spGet ps (str "zoom")))) := by
  unfold extractStructured
  rw [if_neg (by rw [hlat, hlng]; decide), if_neg (by rw [hlatN, hlngN]; decide)]

/-- The manual fallback branch with present, parseable lat and lng: lat and
lng are rounded, and the zoom also goes through `round3`. -/
theorem extractFallback_pos {qs : List Char} (hnq : qs.head? ≠ some '?')
    (hlat : spHas (parseQS qs) (str "lat") = true)
    (hlng : spHas (parseQS qs) (str "lng") = true)
    (hlatN : (jsParseFloat ((spGet (parseQS qs) (str "lat")).getD [])).isNaNb = false)
    (hlngN : (jsParseFloat ((spGet (parseQS qs) (str "lng")).getD [])).isNaNb = false) :
    extractFallback (str "wplace.live/?" ++ qs)
      = some (buildResult (round3Num (jsParseFloat ((spGet (parseQS qs) (str "lat")).getD [])))
          (round3Num (jsParseFloat ((spGet (parseQS qs) (str "lng")).getD [])))
          (zoomRounded (spGet (parseQS qs) (str "zoom")))) := by
  have hsp : splitFirstChar '?' (str "wplace.live/?" ++ qs)
      = some (str "wplace.live/", qs) := rfl
  unfold extractFallback
  rw [hsp]
  show (if spHas (newSearchParams qs) (str "lat") && spHas (newSearchParams qs) (str "lng") then
      if !(jsParseFloat ((spGet (newSearchParams qs) (str "lat")).getD [])).isNaNb
          && !(jsParseFloat ((spGet (newSearchParams qs) (str "lng")).getD [])).isNaNb then
        some (buildResult
          (round3Num (jsParseFloat ((spGet (newSearchParams qs) (str "lat")).getD [])))
          (round3Num (jsParseFloat ((spGet (newSearchParams qs) (str "lng")).getD [])))
          (zoomRounded (spGet (newSearchParams qs) (str "zoom"))))
      else none
    else none) = _
  rw [newSearchParams_no_q hnq]
  rw [if_pos (by rw [hlat, hlng]; decide), if_pos (by rw [hlatN, hlngN]; decide)]

/-! ## Round-trip lemmas: query strings of the output family -/

/-- A zoom-part character that survives the round trip: printable ASCII,
none of `' " # & % +`. -/
def tameZoomChar (c : Char) : Bool :=
  32 < c.toNat && c.toNat < 127 &&
  !(c.toNat = 38 || c.toNat = 35 || c.toNat = 37 || c.toNat = 43 ||
    c.toNat = 39 || c.toNat = 34)

theorem char_ne_of_toNat_ne {c d : Char} (h : c.toNat ≠ d.toNat) : c ≠ d :=
  fun he => h (congrArg Char.toNat he)

theorem tail_of_bounds {c : Char} (h1 : 32 < c.toNat) (h2 : c.toNat < 127)
    (h3 : c.toNat ≠ 39) (h4 : c.toNat ≠ 34) : isTailChar c = true := by
  have hsp : isJsSpace c = false := by
    simp only [isJsSpace, Bool.or_eq_false_iff, decide_eq_false_iff_not]
    omega
  unfold isTailChar
  rw [hsp]
  simp only [Bool.not_false, Bool.true_and, Bool.and_eq_true, decide_eq_true_eq]
  exact ⟨char_ne_of_toNat_ne (by rw [show Char.toNat '\'' = 39 from rfl]; omega),
    char_ne_of_toNat_ne (by rw [show Char.toNat '"' = 34 from rfl]; omega)⟩

/-- Characters of a `round3` numeral are printable query/tail characters and
none of `& % +`. -/
theorem fmt3_tame (k : ℤ) : ∀ c ∈ fmt3 k,
    qsChar c ∧ isTailChar c = true ∧ (c ≠ '&' ∧ c ≠ '%' ∧ c ≠ '+') := by
  intro c hc
  rcases fmt3_chars k c hc with h | h | h
  · unfold isDigitC at h
    simp only [Bool.and_eq_true, decide_eq_true_eq] at h
    refine ⟨⟨by omega, char_ne_of_toNat_ne (by rw [show Char.toNat '#' = 35 from rfl]; omega)⟩,
      tail_of_bounds (by omega) (by omega) (by omega) (by omega),
      char_ne_of_toNat_ne (by rw [show Char.toNat '&' = 38 from rfl]; omega),
      char_ne_of_toNat_ne (by rw [show Char.toNat '%' = 37 from rfl]; omega),
      char_ne_of_toNat_ne (by rw [show Char.toNat '+' = 43 from rfl]; omega)⟩
  · subst h
    exact ⟨by decide, by decide, by decide, by decide, by decide⟩
  · subst h
    exact ⟨by decide, by decide, by decide, by decide, by decide⟩

theorem tame_facts {c : Char} (h : tameZoomChar c = true) :
    qsChar c ∧ isTailChar c = true ∧ (c ≠ '&' ∧ c ≠ '%' ∧ c ≠ '+') := by
  unfold tameZoomChar at h
  simp only [Bool.and_eq_true, Bool.not_eq_true', Bool.or_eq_false_iff,
    decide_eq_true_eq, decide_eq_false_iff_not] at h
  obtain ⟨⟨h1, h2⟩, h3⟩ := h
  exact ⟨⟨h1, char_ne_of_toNat_ne (by rw [show Char.toNat '#' = 35 from rfl]; omega)⟩,
    tail_of_bounds h1 h2 (by omega) (by omega),
    char_ne_of_toNat_ne (by rw [show Char.toNat '&' = 38 from rfl]; omega),
    char_ne_of_toNat_ne (by rw [show Char.toNat '%' = 37 from rfl]; omega),
    char_ne_of_toNat_ne (by rw [show Char.toNat '+' = 43 from rfl]; omega)⟩

theorem splitOnChar_ne_nil (a : Char) (l : List Char) : splitOnChar a l ≠ [] := by
  cases l with
  | nil => simp [splitOnChar]
  | cons c r =>
    show (match splitOnChar a r with
      | [] => [[]]
      | s :: ss => if c = a then [] :: s :: ss else (c :: s) :: ss) ≠ []
    cases splitOnChar a r with
    | nil => simp
    | cons s ss =>
      show (if c = a then [] :: s :: ss else (c :: s) :: ss) ≠ []
      split <;> simp

theorem splitOnChar_no {a : Char} {l : List Char} (h : ∀ c ∈ l, c ≠ a) :
    splitOnChar a l = [l] := by
  induction l with
  | nil => rfl
  | cons c r ih =>
    have ih' := ih (fun x hx => h x (List.mem_cons_of_mem c hx))
    unfold splitOnChar
    rw [ih']
    show (if c = a then [] :: r :: [] else (c :: r) :: []) = [c :: r]
    rw [if_neg (h c (List.mem_cons_self c r))]

theorem splitOnChar_break {a : Char} {l : List Char} (r : List Char)
    (h : ∀ c ∈ l, c ≠ a) :
    splitOnChar a (l ++ (a :: r)) = l :: splitOnChar a r := by
  induction l with
  | nil =>
    show (match splitOnChar a r with
      | [] => [[]]
      | s :: ss => if a = a then [] :: s :: ss else (a :: s) :: ss) = [] :: splitOnChar a r
    cases splitOnChar a r with
    | nil => rfl
    | cons s ss =>
      show (if a = a then [] :: s :: ss else (a :: s) :: ss) = [] :: s :: ss
      rw [if_pos rfl]
  | cons c cs ih =>
    have ih' := ih (fun x hx => h x (List.mem_cons_of_mem c hx))
    show (match splitOnChar a (cs ++ (a :: r)) with
      | [] => [[]]
      | s :: ss => if c = a then [] :: s :: ss else (c :: s) :: ss)
      = (c :: cs) :: splitOnChar a r
    rw [ih']
    show (if c = a then [] :: cs :: splitOnChar a r else (c :: cs) :: splitOnChar a r)
      = (c :: cs) :: splitOnChar a r
    rw [if_neg (h c (List.mem_cons_self c cs))]

theorem percentDecodeF_no_pct (f : Nat) : ∀ {l : List Char}, (∀ c ∈ l, c ≠ '%') →
    percentDecodeF f l = l := by
  induction f with
  | zero => intro l h; rfl
  | succ f ih =>
    intro l h
    cases l with
    | nil => rfl
    | cons c r =>
      show (if c = '%' then
          (match pctStep r with
           | some p => p.1 :: percentDecodeF f p.2
           | none => '%' :: percentDecodeF f r)
        else c :: percentDecodeF f r) = c :: r
      rw [if_neg (h c (List.mem_cons_self c r)),
        ih (fun x hx => h x (List.mem_cons_of_mem c hx))]

/-- Form decoding is the identity on strings without `%` and `+`. -/
theorem formDecode_id {l : List Char} (h : ∀ c ∈ l, c ≠ '%' ∧ c ≠ '+') :
    formDecode l = l := by
  unfold formDecode
  have hm : l.map (fun c => if c = '+' then ' ' else c) = l := by
    have he : ∀ c ∈ l, (fun c => if c = '+' then ' ' else c) c = id c := by
      intro c hc
      show (if c = '+' then ' ' else c) = c
      rw [if_neg (h c hc).2]
    rw [List.map_congr_left he, List.map_id]
  rw [hm]
  unfold percentDecode
  exact percentDecodeF_no_pct l.length (fun c hc => (h c hc).1)

theorem parsePair_lat (L : List Char) (h : ∀ c ∈ L, c ≠ '%' ∧ c ≠ '+') :
    parsePairQS (str "lat=" ++ L) = (str "lat", L) := by
  unfold parsePairQS
  have hsf : splitFirstChar '=' (str "lat=" ++ L) = some (str "lat", L) := rfl
  rw [hsf]
  show (formDecode (str "lat"), formDecode L) = (str "lat", L)
  rw [formDecode_id h, (by decide : formDecode (str "lat") = str "lat")]

theorem parsePair_lng (G : List Char) (h : ∀ c ∈ G, c ≠ '%' ∧ c ≠ '+') :
    parsePairQS (str "lng=" ++ G) = (str "lng", G) := by
  unfold parsePairQS
  have hsf : splitFirstChar '=' (str "lng=" ++ G) = some (str "lng", G) := rfl
  rw [hsf]
  show (formDecode (str "lng"), formDecode G) = (str "lng", G)
  rw [formDecode_id h, (by decide : formDecode (str "lng") = str "lng")]

theorem parsePair_zoom (Z : List Char) (h : ∀ c ∈ Z, c ≠ '%' ∧ c ≠ '+') :
    parsePairQS (str "zoom=" ++ Z) = (str "zoom", Z) := by
  unfold parsePairQS
  have hsf : splitFirstChar '=' (str "zoom=" ++ Z) = some (str "zoom", Z) := rfl
  rw [hsf]
  show (formDecode (str "zoom"), formDecode Z) = (str "zoom", Z)
  rw [formDecode_id h, (by decide : formDecode (str "zoom") = str "zoom")]

/-- `URLSearchParams` pairs of the extractor-output query string without a
zoom part. -/
theorem parseQS_two (L G : List Char)
    (hL : ∀ c ∈ L, c ≠ '&' ∧ c ≠ '%' ∧ c ≠ '+')
    (hG : ∀ c ∈ G, c ≠ '&' ∧ c ≠ '%' ∧ c ≠ '+') :
    parseQS (str "lat=" ++ (L ++ (str "&lng=" ++ G)))
      = [(str "lat", L), (str "lng", G)] := by
  have e : str "lat=" ++ (L ++ (str "&lng=" ++ G))
      = (str "lat=" ++ L) ++ ('&' :: (str "lng=" ++ G)) := by
    rw [show (str "&lng=" : List Char) = '&' :: str "lng=" from rfl]
    simp [List.append_assoc]
  rw [e]
  unfold parseQS
  rw [splitOnChar_break _ (by
      intro c hc
      rcases List.mem_append.mp hc with hc | hc
      · exact (by decide : ∀ c ∈ str "lat=", c ≠ '&') c hc
      · exact (hL c hc).1),
    splitOnChar_no (by
      intro c hc
      rcases List.mem_append.mp hc with hc | hc
      · exact (by decide : ∀ c ∈ str "lng=", c ≠ '&') c hc
      · exact (hG c hc).1)]
  rw [List.filter_eq_self.mpr (by
      intro a ha
      rcases List.mem_cons.mp ha with rfl | ha
      · simp only [decide_eq_true_eq]
        exact List.cons_ne_nil 'l' (str "at=" ++ L)
      · rw [List.mem_singleton.mp ha]
        simp only [decide_eq_true_eq]
        exact List.cons_ne_nil 'l' (str "ng=" ++ G))]
  rw [List.map_cons, List.map_cons, List.map_nil,
    parsePair_lat L (fun c hc => ⟨(hL c hc).2.1, (hL c hc).2.2⟩),
    parsePair_lng G (fun c hc => ⟨(hG c hc).2.1, (hG c hc).2.2⟩)]

/-- `URLSearchParams` pairs of the extractor-output query string with a
zoom part. -/
theorem parseQS_three (L G Z : List Char)
    (hL : ∀ c ∈ L, c ≠ '&' ∧ c ≠ '%' ∧ c ≠ '+')
    (hG : ∀ c ∈ G, c ≠ '&' ∧ c ≠ '%' ∧ c ≠ '+')
    (hZ : ∀ c ∈ Z, c ≠ '&' ∧ c ≠ '%' ∧ c ≠ '+') :
    parseQS (str "lat=" ++ (L ++ (str "&lng=" ++ (G ++ (str "&zoom=" ++ Z)))))
      = [(str "lat", L), (str "lng", G), (str "zoom", Z)] := by
  have e : str "lat=" ++ (L ++ (str "&lng=" ++ (G ++ (str "&zoom=" ++ Z))))
      = (str "lat=" ++ L) ++ ('&' :: ((str "lng=" ++ G) ++ ('&' :: (str "zoom=" ++ Z)))) := by
    rw [show (str "&lng=" : List Char) = '&' :: str "lng=" from rfl,
      show (str "&zoom=" : List Char) = '&' :: str "zoom=" from rfl]
    simp [List.append_assoc]
  rw [e]
  unfold parseQS
  rw [splitOnChar_break _ (by
      intro c hc
      rcases List.mem_append.mp hc with hc | hc
      · exact (by decide : ∀ c ∈ str "lat=", c ≠ '&') c hc
      · exact (hL c hc).1),
    splitOnChar_break _ (by
      intro c hc
      rcases List.mem_append.mp hc with hc | hc
      · exact (by decide : ∀ c ∈ str "lng=", c ≠ '&') c hc
      · exact (hG c hc).1),
    splitOnChar_no (by
      intro c hc
      rcases List.mem_append.mp hc with hc | hc
      · exact (by decide : ∀ c ∈ str "zoom=", c ≠ '&') c hc
      · exact (hZ c hc).1)]
  rw [List.filter_eq_self.mpr (by
      intro a ha
      rcases List.mem_cons.mp ha with rfl | ha
      · simp only [decide_eq_true_eq]
        exact List.cons_ne_nil 'l' (str "at=" ++ L)
      rcases List.mem_cons.mp ha with rfl | ha
      · simp only [decide_eq_true_eq]
        exact List.cons_ne_nil 'l' (str "ng=" ++ G)
      · rw [List.mem_singleton.mp ha]
        simp only [decide_eq_true_eq]
        exact List.cons_ne_nil 'z' (str "oom=" ++ Z))]
  rw [List.map_cons, List.map_cons, List.map_cons, List.map_nil,
    parsePair_lat L (fun c hc => ⟨(hL c hc).2.1, (hL c hc).2.2⟩),
    parsePair_lng G (fun c hc => ⟨(hG c hc).2.1, (hG c hc).2.2⟩),
    parsePair_zoom Z (fun c hc => ⟨(hZ c hc).2.1, (hZ c hc).2.2⟩)]

/-! ## Claims -/

/-- C6: the concrete extraction example of the spec: the text
`visit https://wplace.live/?lat=12.345678&lng=-98.7654&zoom=5 now` extracts to
exactly `wplace.live/?lat=12.346&lng=-98.765&zoom=5`. -/
theorem c6_concrete_extraction :
    extractAndFormatUrl (str "visit https://wplace.live/?lat=12.345678&lng=-98.7654&zoom=5 now")
      = some (str "wplace.live/?lat=12.346&lng=-98.765&zoom=5") := by decide

/-- C7 counterexample: `round3` is not round-half-away-from-zero on negative
inputs: at `-0.0625` (scaled integer `-62.5`, exactly representable in binary,
so the idealization agrees with the double computation) the code produces
`-0.062` (half toward `+∞`), while away-from-zero would give `-0.063`. -/
theorem c7_half_counterexample :
    round3Num (.fin ⟨-625, 4⟩) = some (str "-0.062")
      ∧ (str "-0.062" : List Char) ≠ str "-0.063" :=
  ⟨by decide, by decide⟩

/-- C7 (amended): `round3` rounds at 3 decimals with round-half-toward-+∞
(`Math.round`) semantics on the scaled value — away from zero for positive
halves but toward zero for negative halves — then strips trailing zeros; the
concrete examples of the spec hold, and non-numeric strings give null.  The
value `(10k+5)/10^4` scales to exactly `k + 1/2`, and always rounds to
`k + 1`. -/
theorem c7_round3_amended :
    (∀ k : ℤ, round3Num (.fin ⟨10 * k + 5, 4⟩) = some (fmt3 (k + 1)))
      ∧ round3Num (.fin ⟨123456, 5⟩) = some (str "1.235")
      ∧ round3Num (.fin ⟨12, 1⟩) = some (str "1.2")
      ∧ round3Num (.fin ⟨2, 0⟩) = some (str "2")
      ∧ round3OfStr (str "abc") = none := by
  refine ⟨?_, by decide, by decide, by decide, by decide⟩
  intro k
  show some (fmt3 (jsRoundDec (decMul1000 ⟨10 * k + 5, 4⟩))) = some (fmt3 (k + 1))
  have : jsRoundDec (decMul1000 ⟨10 * k + 5, 4⟩) = k + 1 := by
    show (2 * ((10 * k + 5) * 1000) + 10 ^ 4) / (2 * 10 ^ 4) = k + 1
    norm_num
    omega
  rw [this]

/-- C2: the guard only rejects NaN, not non-finite parses.  The two null
examples of the spec hold, but a fragment with `lat=Infinity` passes the
`Number.isNaN` check (`parseFloat("Infinity")` is `Infinity`, not NaN), and
`round3(Infinity)` is null, so the template renders the string
`wplace.live/?lat=null&lng=5` instead of returning null as the spec's
finiteness invariant demands. -/
theorem c2_nonfinite_guard :
    extractAndFormatUrl (str "hello world") = none
      ∧ extractAndFormatUrl (str "wplace.live/?lat=12.3") = none
      ∧ extractAndFormatUrl (str "wplace.live/?lat=Infinity&lng=5")
          = some (str "wplace.live/?lat=null&lng=5") :=
  ⟨by decide, by decide, by decide⟩

/-- C1 counterexample: a success whose zoom value decodes to a string with a
space is not a fixed point: the first pass decodes `a%20b` to `a b` and embeds
it raw; re-extraction stops the regex match at the space, so the second pass
returns a shorter string. -/
theorem c1_zoom_counterexample :
    extractAndFormatUrl (str "wplace.live/?lat=1&lng=2&zoom=a%20b")
      = some (str "wplace.live/?lat=1&lng=2&zoom=a b")
    ∧ extractAndFormatUrl (str "wplace.live/?lat=1&lng=2&zoom=a b")
      = some (str "wplace.live/?lat=1&lng=2&zoom=a")
    ∧ (str "wplace.live/?lat=1&lng=2&zoom=a" : List Char)
        ≠ str "wplace.live/?lat=1&lng=2&zoom=a b" :=
  ⟨by decide, by decide, by decide⟩

/-- C3 counterexample: with a protocol the fragment is protocol-stripped
before `new URL` and the constructor throws, so extraction takes the manual
fallback — which passes zoom through `round3`: `zoom=5.6789` comes out as
`zoom=5.679`, not "exactly as found". -/
theorem c3_zoom_rounded_counterexample :
    extractAndFormatUrl (str "https://wplace.live/?lat=1&lng=2&zoom=5.6789")
      = some (str "wplace.live/?lat=1&lng=2&zoom=5.679")
    ∧ (str "wplace.live/?lat=1&lng=2&zoom=5.679" : List Char)
        ≠ str "wplace.live/?lat=1&lng=2&zoom=5.6789" :=
  ⟨by decide, by decide⟩

/-- C4 counterexample: a fragment that makes the structured parse throw (here:
protocol present, so the stripped input has no scheme) with `zoom=7.1234`
yields a rounded zoom through the fallback, while the structured path on the
well-formed fragment with the same parameter values keeps the zoom raw. -/
theorem c4_fallback_zoom_counterexample :
    extractAndFormatUrl (str "https://wplace.live/?lat=1&lng=2&zoom=7.1234")
      = some (str "wplace.live/?lat=1&lng=2&zoom=7.123")
    ∧ extractAndFormatUrl (str "wplace.live/?lat=1&lng=2&zoom=7.1234")
      = some (str "wplace.live/?lat=1&lng=2&zoom=7.1234")
    ∧ (str "wplace.live/?lat=1&lng=2&zoom=7.123" : List Char)
        ≠ str "wplace.live/?lat=1&lng=2&zoom=7.1234" :=
  ⟨by decide, by decide, by decide⟩

/-- C5 counterexample: the interceptor's normalizer feeds the raw parameter
string to `round3` (ECMAScript `Number` coercion), while the extractor uses
`parseFloat`; on `lat=12.3abc` the extractor succeeds with `12.3` but the
normalizer renders `null`. -/
theorem c5_number_coercion_counterexample :
    extractAndFormatUrl (str "wplace.live/?lat=12.3abc&lng=4")
      = some (str "wplace.live/?lat=12.3&lng=4")
    ∧ normalizeAndRoundUrl (str "wplace.live/?lat=12.3abc&lng=4")
      = some (str "wplace.live/?lat=null&lng=4")
    ∧ (str "wplace.live/?lat=12.3&lng=4" : List Char) ≠ str "wplace.live/?lat=null&lng=4" :=
  ⟨by decide, by decide, by decide⟩

/-- C8: no-op on equality — when the node's trimmed current content already
equals the formatted string, `applyFormattedIfNeeded` returns before touching
the debounce map: the node, the map entry and any pending timer are exactly
unchanged. -/
theorem c8_noop_on_equal (s : SyncState) (f : List Char)
    (h : currentContent s.node = f) :
    applyFormattedIfNeeded s (some f) = s := by
  show (if f = [] then s
    else if currentContent s.node = f then s
    else { node := s.node, pending := some f }) = s
  by_cases hf : f = []
  · rw [if_pos hf]
  · rw [if_neg hf, if_pos h]

/-- A concrete target node already displaying a Normalized String, with a
pending timer. -/
def sampleSync : SyncState :=
  ⟨⟨true, str "wplace.live/?lat=1&lng=2", none, false, [], [], none,
    some (str "text-base-content/80"), some (str ""), []⟩,
   some (str "wplace.live/?lat=9&lng=9")⟩

/-- C8 witness: the no-op theorem applied at a concrete node whose content
already equals the formatted string, with a pending timer left untouched. -/
theorem c8_noop_witness :
    applyFormattedIfNeeded sampleSync (some (str "wplace.live/?lat=1&lng=2")) = sampleSync :=
  c8_noop_on_equal sampleSync (str "wplace.live/?lat=1&lng=2") (by decide)

/-- A concrete target node with no title attribute. -/
def sampleNode : NodeState :=
  ⟨true, str "old", none, true, [], [], none, some (str "text-base-content/80"),
   some (str ""), [(str "id", str "x")]⟩

/-- C9 counterexample: applying a pending rewrite does not leave every other
attribute unchanged — the timer callback also sets the `title` attribute
(source line 117). -/
theorem c9_title_counterexample :
    (applyPendingWrite sampleNode (str "wplace.live/?lat=1&lng=2")).titleAttr
      ≠ sampleNode.titleAttr := by decide

/-- C9 (amended): applying a pending rewrite changes exactly the first
supported text surface and the `title` attribute; the value attribute, class,
readonly and all other attributes are unchanged, and the untouched text
surfaces keep their values. -/
theorem c9_write_frame (el : NodeState) (f : List Char) :
    (applyPendingWrite el f).valueAttr = el.valueAttr
      ∧ (applyPendingWrite el f).classAttr = el.classAttr
      ∧ (applyPendingWrite el f).readonlyAttr = el.readonlyAttr
      ∧ (applyPendingWrite el f).otherAttrs = el.otherAttrs
      ∧ (applyPendingWrite el f).titleAttr = some (str "formatted â†’ " ++ f)
      ∧ (applyPendingWrite el f).value = (if el.hasValueProp then f else el.value)
      ∧ (applyPendingWrite el f).innerText
          = (if el.hasValueProp then el.innerText
             else if el.hasInnerTextProp then f else el.innerText)
      ∧ (applyPendingWrite el f).textContent
          = (if el.hasValueProp ∨ el.hasInnerTextProp then el.textContent else f) := by
  unfold applyPendingWrite
  by_cases h1 : el.hasValueProp <;> by_cases h2 : el.hasInnerTextProp <;>
    simp [h1, h2]

/-- C10: every candidate the click handler can find — a non-empty string
returned by `extractWplaceUrl`, hence a match of the wplace regex —
normalizes to a non-empty string, so the handler's second failure branch
(normalization returned nothing) is unreachable: the outcome on any found
candidate is a copy of the normalized link. -/
theorem c10_candidate_normalizes {t raw : List Char}
    (h : extractWplaceUrl t = some raw) :
    ∃ s, normalizeAndRoundUrl raw = some s ∧ s ≠ []
      ∧ clickHandlerOutcome (some raw) = .copied s := by
  have hfm : findWplaceMatch t = some raw := by
    unfold extractWplaceUrl at h
    split at h
    · exact absurd h (by simp)
    · exact h
  obtain ⟨p, w, wl, tl, rfl, hp, hw, hwl, htl⟩ := findWplaceMatch_shape hfm
  obtain ⟨c0, cs0, hsplit, hc0⟩ := shape_whead tl hw hwl
  rw [hsplit]
  obtain ⟨s, h1, h2⟩ := normalize_of_shape p c0 cs0 hp hc0
  exact ⟨s, h1, h2, clickHandler_of_normalize h1 h2⟩

/-- C10 witness: the concrete candidate found in
`see wplace.live/?lat=1&lng=2`. -/
theorem c10_candidate_witness :
    ∃ s, normalizeAndRoundUrl (str "wplace.live/?lat=1&lng=2") = some s ∧ s ≠ []
      ∧ clickHandlerOutcome (some (str "wplace.live/?lat=1&lng=2")) = .copied s :=
  c10_candidate_normalizes (t := str "see wplace.live/?lat=1&lng=2") (by decide)

/-- C3 (amended): for every printable query string (no `#`, no whitespace or
quote characters) whose lat and lng are present and parse to non-NaN values,
the structured path taken on the protocol-less fragment appends the zoom
parameter exactly as found (`zoomRaw`), while the manual fallback taken on the
protocol-carrying fragment passes it through `round3` (`zoomRounded`) — so the
zoom is NOT unmodified on both paths. -/
theorem c3_zoom_amended (qs : List Char)
    (hq : ∀ c ∈ qs, qsChar c ∧ isTailChar c = true) (hnq : qs.head? ≠ some '?')
    (hlat : spHas (parseQS qs) (str "lat") = true)
    (hlng : spHas (parseQS qs) (str "lng") = true)
    (hlatN : (jsParseFloat ((spGet (parseQS qs) (str "lat")).getD [])).isNaNb = false)
    (hlngN : (jsParseFloat ((spGet (parseQS qs) (str "lng")).getD [])).isNaNb = false) :
    extractAndFormatUrl (str "wplace.live/?" ++ qs)
      = some (buildResult (round3Num (jsParseFloat ((spGet (parseQS qs) (str "lat")).getD [])))
          (round3Num (jsParseFloat ((spGet (parseQS qs) (str "lng")).getD [])))
          (zoomRaw (spGet (parseQS qs) (str "zoom"))))
    ∧ extractAndFormatUrl (str "https://wplace.live/?" ++ qs)
      = some (buildResult (round3Num (jsParseFloat ((spGet (parseQS qs) (str "lat")).getD [])))
          (round3Num (jsParseFloat ((spGet (parseQS qs) (str "lng")).getD [])))
          (zoomRounded (spGet (parseQS qs) (str "zoom")))) := by
  constructor
  · rw [extract_wellformed_structured qs hq]
    exact extractStructured_pos hlat hlng hlatN hlngN
  · rw [extract_throwing_fallback qs hq]
    exact extractFallback_pos hnq hlat hlng hlatN hlngN

/-- C3 witness: the two paths at `lat=1&lng=2&zoom=5.6789`. -/
theorem c3_zoom_witness :
    extractAndFormatUrl (str "wplace.live/?lat=1&lng=2&zoom=5.6789")
      = some (buildResult
          (round3Num (jsParseFloat
            ((spGet (parseQS (str "lat=1&lng=2&zoom=5.6789")) (str "lat")).getD [])))
          (round3Num (jsParseFloat
            ((spGet (parseQS (str "lat=1&lng=2&zoom=5.6789")) (str "lng")).getD [])))
          (zoomRaw (spGet (parseQS (str "lat=1&lng=2&zoom=5.6789")) (str "zoom"))))
    ∧ extractAndFormatUrl (str "https://wplace.live/?lat=1&lng=2&zoom=5.6789")
      = some (buildResult
          (round3Num (jsParseFloat
            ((spGet (parseQS (str "lat=1&lng=2&zoom=5.6789")) (str "lat")).getD [])))
          (round3Num (jsParseFloat
            ((spGet (parseQS (str "lat=1&lng=2&zoom=5.6789")) (str "lng")).getD [])))
          (zoomRounded (spGet (parseQS (str "lat=1&lng=2&zoom=5.6789")) (str "zoom")))) :=
  c3_zoom_amended (str "lat=1&lng=2&zoom=5.6789") (by decide) (by decide) (by decide)
    (by decide) (by decide) (by decide)

/-- C4 (amended): for every printable query string (no `#`, not starting with
`?`, no whitespace or quote characters) whose lat and lng are present and
parse to non-NaN values, and whose zoom treatment is `round3`-stable (the raw
and rounded zoom parts agree — in particular when zoom is absent, empty, or a
fixed point of `round3`), the manual fallback taken on the throwing fragment
`https://wplace.live/?<qs>` produces the same Normalized String as the
structured path on the well-formed fragment `wplace.live/?<qs>`. -/
theorem c4_fallback_equiv_amended (qs : List Char)
    (hq : ∀ c ∈ qs, qsChar c ∧ isTailChar c = true) (hnq : qs.head? ≠ some '?')
    (hlat : spHas (parseQS qs) (str "lat") = true)
    (hlng : spHas (parseQS qs) (str "lng") = true)
    (hlatN : (jsParseFloat ((spGet (parseQS qs) (str "lat")).getD [])).isNaNb = false)
    (hlngN : (jsParseFloat ((spGet (parseQS qs) (str "lng")).getD [])).isNaNb = false)
    (hz : zoomRounded (spGet (parseQS qs) (str "zoom"))
      = zoomRaw (spGet (parseQS qs) (str "zoom"))) :
    extractAndFormatUrl (str "https://wplace.live/?" ++ qs)
      = extractAndFormatUrl (str "wplace.live/?" ++ qs) := by
  rw [extract_wellformed_structured qs hq, extract_throwing_fallback qs hq,
    extractStructured_pos hlat hlng hlatN hlngN,
    extractFallback_pos hnq hlat hlng hlatN hlngN, hz]

/-- C4 witness: the two fragments at `lat=1.23456&lng=2&zoom=5` (a
`round3`-stable zoom) extract identically. -/
theorem c4_fallback_equiv_witness :
    extractAndFormatUrl (str "https://wplace.live/?lat=1.23456&lng=2&zoom=5")
      = extractAndFormatUrl (str "wplace.live/?lat=1.23456&lng=2&zoom=5") :=
  c4_fallback_equiv_amended (str "lat=1.23456&lng=2&zoom=5") (by decide) (by decide)
    (by decide) (by decide) (by decide) (by decide) (by decide)

/-- C5 (amended): the interceptor's normalizer agrees with the extractor on
every protocol-less candidate `wplace.live/?<qs>` (printable query string, no
`#`, not starting with `?`, no whitespace or quote characters) whose lat and
lng are present, parse to non-NaN values under `parseFloat`, and whose raw
lat/lng strings round identically under ECMAScript `Number` coercion
(`round3OfStr`) and under `parseFloat` (`round3Num ∘ jsParseFloat`) — e.g.
every canonical decimal numeral.  (It is not functionally identical in
general: the two rounding pipelines differ on inputs such as `12.3abc`.) -/
theorem c5_normalizer_agrees_amended (qs : List Char)
    (hq : ∀ c ∈ qs, qsChar c ∧ isTailChar c = true)
    (hlat : spHas (parseQS qs) (str "lat") = true)
    (hlng : spHas (parseQS qs) (str "lng") = true)
    (hlatN : (jsParseFloat ((spGet (parseQS qs) (str "lat")).getD [])).isNaNb = false)
    (hlngN : (jsParseFloat ((spGet (parseQS qs) (str "lng")).getD [])).isNaNb = false)
    (hlatA : round3OfStr ((spGet (parseQS qs) (str "lat")).getD [])
      = round3Num (jsParseFloat ((spGet (parseQS qs) (str "lat")).getD [])))
    (hlngA : round3OfStr ((spGet (parseQS qs) (str "lng")).getD [])
      = round3Num (jsParseFloat ((spGet (parseQS qs) (str "lng")).getD []))) :
    normalizeAndRoundUrl (str "wplace.live/?" ++ qs)
      = extractAndFormatUrl (str "wplace.live/?" ++ qs) := by
  have hnorm : normalizeAndRoundUrl (str "wplace.live/?" ++ qs)
      = normStructured ⟨str "https", str "wplace.live", [], ['/'], qs, []⟩ := by
    have hne : str "wplace.live/?" ++ qs ≠ [] :=
      List.cons_ne_nil 'w' (str "place.live/?" ++ qs)
    unfold normalizeAndRoundUrl
    rw [if_neg hne]
    exact normCore_some (jsNewURL_wellformed qs (fun c hc => (hq c hc).1))
  rw [hnorm, extract_wellformed_structured qs hq,
    extractStructured_pos hlat hlng hlatN hlngN]
  have hsp : JsURL.searchParams ⟨str "https", str "wplace.live", [], ['/'], qs, []⟩
      = parseQS qs := rfl
  unfold normStructured
  rw [hsp, if_pos (by rw [hlat, hlng]; decide), hlatA, hlngA]

/-- C5 witness: agreement at the canonical candidate
`wplace.live/?lat=1.23456&lng=-98.7654&zoom=5`. -/
theorem c5_normalizer_agrees_witness :
    normalizeAndRoundUrl (str "wplace.live/?lat=1.23456&lng=-98.7654&zoom=5")
      = extractAndFormatUrl (str "wplace.live/?lat=1.23456&lng=-98.7654&zoom=5") :=
  c5_normalizer_agrees_amended (str "lat=1.23456&lng=-98.7654&zoom=5") (by decide)
    (by decide) (by decide) (by decide) (by decide) (by decide) (by decide)

/-- C1 (amended): the extractor is idempotent on every success string whose
lat and lng parts are genuine rounded numerals (`fmt3` of the scaled
integers, as every finite rounding produces) and whose zoom part is either
absent or `&zoom=` followed by a non-empty string of printable ASCII
characters other than `' " # & % +` — re-extraction returns the string
byte-identically.  (Outside this family round-tripping can fail, e.g. a zoom
that percent-decodes to a string with a space, or a `null` coordinate.) -/
theorem c1_idempotent_amended (k₁ k₂ : ℤ) (zp : List Char)
    (hzp : zp = [] ∨ ∃ z, zp = str "&zoom=" ++ z ∧ z ≠ []
      ∧ ∀ c ∈ z, tameZoomChar c = true) :
    extractAndFormatUrl (buildResult (some (fmt3 k₁)) (some (fmt3 k₂)) zp)
      = some (buildResult (some (fmt3 k₁)) (some (fmt3 k₂)) zp) := by
  have hL := fmt3_tame k₁
  have hG := fmt3_tame k₂
  obtain ⟨dL, hdL, -⟩ := parseFloat_fmt3 k₁
  obtain ⟨dG, hdG, -⟩ := parseFloat_fmt3 k₂
  rcases hzp with rfl | ⟨z, rfl, hzne, hz⟩
  · have hQS : buildResult (some (fmt3 k₁)) (some (fmt3 k₂)) []
        = str "wplace.live/?" ++ (str "lat=" ++ (fmt3 k₁ ++ (str "&lng=" ++ fmt3 k₂))) := by
      unfold buildResult optStr
      simp only [Option.getD_some]
      rw [show (str "wplace.live/?lat=" : List Char)
        = str "wplace.live/?" ++ str "lat=" from rfl]
      simp [List.append_assoc]
    have hq : ∀ c ∈ str "lat=" ++ (fmt3 k₁ ++ (str "&lng=" ++ fmt3 k₂)),
        qsChar c ∧ isTailChar c = true := by
      intro c hc
      rcases List.mem_append.mp hc with hc | hc
      · exact (by decide : ∀ c ∈ str "lat=", qsChar c ∧ isTailChar c = true) c hc
      rcases List.mem_append.mp hc with hc | hc
      · exact ⟨(hL c hc).1, (hL c hc).2.1⟩
      rcases List.mem_append.mp hc with hc | hc
      · exact (by decide : ∀ c ∈ str "&lng=", qsChar c ∧ isTailChar c = true) c hc
      · exact ⟨(hG c hc).1, (hG c hc).2.1⟩
    have hgetlat : spGet [(str "lat", fmt3 k₁), (str "lng", fmt3 k₂)] (str "lat")
        = some (fmt3 k₁) := rfl
    have hgetlng : spGet [(str "lat", fmt3 k₁), (str "lng", fmt3 k₂)] (str "lng")
        = some (fmt3 k₂) := rfl
    have hgetzoom : spGet [(str "lat", fmt3 k₁), (str "lng", fmt3 k₂)] (str "zoom")
        = none := rfl
    have hlatN : (jsParseFloat ((spGet [(str "lat", fmt3 k₁), (str "lng", fmt3 k₂)]
        (str "lat")).getD [])).isNaNb = false := by
      rw [hgetlat]
      simp only [Option.getD_some]
      rw [hdL]
      rfl
    have hlngN : (jsParseFloat ((spGet [(str "lat", fmt3 k₁), (str "lng", fmt3 k₂)]
        (str "lng")).getD [])).isNaNb = false := by
      rw [hgetlng]
      simp only [Option.getD_some]
      rw [hdG]
      rfl
    have hlat : spHas [(str "lat", fmt3 k₁), (str "lng", fmt3 k₂)] (str "lat") = true := rfl
    have hlng : spHas [(str "lat", fmt3 k₁), (str "lng", fmt3 k₂)] (str "lng") = true := rfl
    rw [hQS, extract_wellformed_structured _ hq,
      parseQS_two (fmt3 k₁) (fmt3 k₂) (fun c hc => (hL c hc).2.2) (fun c hc => (hG c hc).2.2),
      extractStructured_pos hlat hlng hlatN hlngN, hgetlat, hgetlng, hgetzoom]
    simp only [Option.getD_some]
    rw [round3_parse_fmt3 k₁, round3_parse_fmt3 k₂,
      show zoomRaw none = ([] : List Char) from rfl, ← hQS]
  · have hzf := fun c hc => tame_facts (hz c hc)
    have hQS : buildResult (some (fmt3 k₁)) (some (fmt3 k₂)) (str "&zoom=" ++ z)
        = str "wplace.live/?"
          ++ (str "lat=" ++ (fmt3 k₁ ++ (str "&lng=" ++ (fmt3 k₂ ++ (str "&zoom=" ++ z))))) := by
      unfold buildResult optStr
      simp only [Option.getD_some]
      rw [show (str "wplace.live/?lat=" : List Char)
        = str "wplace.live/?" ++ str "lat=" from rfl]
      simp [List.append_assoc]
    have hq : ∀ c ∈ str "lat="
        ++ (fmt3 k₁ ++ (str "&lng=" ++ (fmt3 k₂ ++ (str "&zoom=" ++ z)))),
        qsChar c ∧ isTailChar c = true := by
      intro c hc
      rcases List.mem_append.mp hc with hc | hc
      · exact (by decide : ∀ c ∈ str "lat=", qsChar c ∧ isTailChar c = true) c hc
      rcases List.mem_append.mp hc with hc | hc
      · exact ⟨(hL c hc).1, (hL c hc).2.1⟩
      rcases List.mem_append.mp hc with hc | hc
      · exact (by decide : ∀ c ∈ str "&lng=", qsChar c ∧ isTailChar c = true) c hc
      rcases List.mem_append.mp hc with hc | hc
      · exact ⟨(hG c hc).1, (hG c hc).2.1⟩
      rcases List.mem_append.mp hc with hc | hc
      · exact (by decide : ∀ c ∈ str "&zoom=", qsChar c ∧ isTailChar c = true) c hc
      · exact ⟨(hzf c hc).1, (hzf c hc).2.1⟩
    have hgetlat : spGet [(str "lat", fmt3 k₁), (str "lng", fmt3 k₂), (str "zoom", z)]
        (str "lat") = some (fmt3 k₁) := rfl
    have hgetlng : spGet [(str "lat", fmt3 k₁), (str "lng", fmt3 k₂), (str "zoom", z)]
        (str "lng") = some (fmt3 k₂) := rfl
    have hgetzoom : spGet [(str "lat", fmt3 k₁), (str "lng", fmt3 k₂), (str "zoom", z)]
        (str "zoom") = some z := rfl
    have hlatN : (jsParseFloat ((spGet [(str "lat", fmt3 k₁), (str "lng", fmt3 k₂),
        (str "zoom", z)] (str "lat")).getD [])).isNaNb = false := by
      rw [hgetlat]
      simp only [Option.getD_some]
      rw [hdL]
      rfl
    have hlngN : (jsParseFloat ((spGet [(str "lat", fmt3 k₁), (str "lng", fmt3 k₂),
        (str "zoom", z)] (str "lng")).getD [])).isNaNb = false := by
      rw [hgetlng]
      simp only [Option.getD_some]
      rw [hdG]
      rfl
    have hzr : zoomRaw (some z) = str "&zoom=" ++ z := by
      show (if z = [] then [] else str "&zoom=" ++ z) = str "&zoom=" ++ z
      rw [if_neg hzne]
    have hlat : spHas [(str "lat", fmt3 k₁), (str "lng", fmt3 k₂), (str "zoom", z)]
        (str "lat") = true := rfl
    have hlng : spHas [(str "lat", fmt3 k₁), (str "lng", fmt3 k₂), (str "zoom", z)]
        (str "lng") = true := rfl
    rw [hQS, extract_wellformed_structured _ hq,
      parseQS_three (fmt3 k₁) (fmt3 k₂) z (fun c hc => (hL c hc).2.2)
        (fun c hc => (hG c hc).2.2) (fun c hc => (hzf c hc).2.2),
      extractStructured_pos hlat hlng hlatN hlngN, hgetlat, hgetlng, hgetzoom]
    simp only [Option.getD_some]
    rw [round3_parse_fmt3 k₁, round3_parse_fmt3 k₂, hzr, ← hQS]

/-- C1 witness: re-extraction of the concrete Normalized String
`wplace.live/?lat=1.235&lng=-98.765&zoom=5`. -/
theorem c1_idempotent_witness :
    extractAndFormatUrl (buildResult (some (fmt3 1235)) (some (fmt3 (-98765))) (str "&zoom=5"))
      = some (buildResult (some (fmt3 1235)) (some (fmt3 (-98765))) (str "&zoom=5")) :=
  c1_idempotent_amended 1235 (-98765) (str "&zoom=5")
    (Or.inr ⟨str "5", rfl, by decide, by decide⟩)

end Wplace
